import Mathlib

set_option maxHeartbeats 1000000

/- Shallow embedding of the wbreza/container IoC container (container.go /
   binding.go).  Containers and bindings live in an explicit heap; factory
   functions ("resolvers") are modelled by an environment of pure functions
   that receive an allocation seed (the length of the invocation log), which
   models Go heap allocation and makes instance identity observable.  Go
   reflection panics are modelled by the `crash` outcome, and the unbounded
   recursion of resolution by a fuel parameter (`nofuel`). -/

/-- Simple (non-function) Go types: the distinguished context-implementing
types and all other types, tagged with whether their reflect kind is
nilable (chan, func, interface, map, pointer, slice). -/
inductive STy where
  | ctx : STy
  | base : Nat → Bool → STy
deriving DecidableEq, Repr

/-- A Go reflect type: a simple type or a function type with its
parameter and result type lists. -/
inductive GoTy where
  | sTy : STy → GoTy
  | fnTy : List STy → List STy → GoTy
deriving DecidableEq, Repr

/-- The three lifetimes of binding.go. -/
inductive Lifetime where
  | singleton : Lifetime
  | transient : Lifetime
  | scoped : Lifetime
deriving DecidableEq, Repr

/-- A Go interface value: nil, an ordinary instance (with identity tag),
a value whose dynamic type implements error, a function value (an index
into the factory environment together with its signature), or a context
value. -/
inductive Value where
  | nil : Value
  | obj : GoTy → Nat → Value
  | errV : GoTy → Nat → Value
  | fnV : List STy → List STy → Nat → Value
  | ctxV : Nat → Value
deriving DecidableEq, Repr

/-- reflect.TypeOf: the dynamic type of an interface value (none for nil). -/
def Value.typeOf : Value → Option GoTy
  | .nil => none
  | .obj ty _ => some ty
  | .errV ty _ => some ty
  | .fnV ins outs _ => some (.fnTy ins outs)
  | .ctxV _ => some (.sTy .ctx)

/-- The error taxonomy of container.go, with the wrapping structure of the
fmt.Errorf chains made explicit. -/
inductive Err where
  | invalidResolverNotFunc : Err
  | invalidResolverInstanceFunc : Err
  | invalidResolverArity : Err
  | invalidResolverSelfDep : Err
  | invalidAbstraction : Err
  | invalidReceiver : Err
  | invalidStructure : Err
  | invalidStructureTag : String → Err
  | contextRequired : Err
  | bindingNotFound : GoTy → Err
  | resolutionFailed : GoTy → String → Err → Err
  | resolutionFailedArg : GoTy → Err → Err
  | resolutionFailedField : String → Err → Err
  | userErr : Nat → Err
deriving DecidableEq, Repr

/-- Outcome of an operation: a returned value, a returned Go error, a Go
runtime panic (`crash`), or fuel exhaustion (`nofuel`, modelling the
divergence of unbounded recursive resolution). -/
inductive Out (α : Type) where
  | ok : α → Out α
  | err : Err → Out α
  | crash : Out α
  | nofuel : Out α
deriving DecidableEq, Repr

/-- binding.go: a resolver, the cached concrete (Value.nil when unset,
matching the `b.concrete != nil` check), and the lifetime. -/
structure Binding where
  resolver : Value
  concrete : Value
  lifetime : Lifetime
deriving DecidableEq, Repr

/-- A container object: optional parent pointer and the bindings map,
modelled as an association list keyed by (type, name). -/
structure CObj where
  parent : Option Nat
  bmap : List (GoTy × String × Nat)
deriving DecidableEq, Repr

/-- The machine state: the heap of containers, the heap of bindings, and
the log of factory invocations (its length doubles as allocation seed). -/
structure St where
  containers : List CObj
  binds : List Binding
  log : List Nat
deriving DecidableEq, Repr

/-- Factory environment: factory id, argument list, allocation seed and
result index give the produced value. -/
def FnEnv := Nat → List Value → Nat → Nat → Value

/-- Lookup in a bindings map (c.bindings[t][name]). -/
def mlookup (m : List (GoTy × String × Nat)) (t : GoTy) (nm : String) : Option Nat :=
  match m with
  | [] => none
  | (t', nm', bp) :: rest => if t' = t ∧ nm' = nm then some bp else mlookup rest t nm

/-- Insert/overwrite in a bindings map (c.bindings[t][name] = b). -/
def minsert (m : List (GoTy × String × Nat)) (t : GoTy) (nm : String) (bp : Nat) :
    List (GoTy × String × Nat) :=
  match m with
  | [] => [(t, nm, bp)]
  | (t', nm', bp') :: rest =>
    if t' = t ∧ nm' = nm then (t, nm, bp) :: rest
    else (t', nm', bp') :: minsert rest t nm bp

def getCont (st : St) (cp : Nat) : Option CObj := st.containers[cp]?

def getBind (st : St) (bp : Nat) : Option Binding := st.binds[bp]?

/-- Replace the bindings map of container cp. -/
def setBmap (st : St) (cp : Nat) (m : List (GoTy × String × Nat)) : St :=
  match st.containers[cp]? with
  | some c => { st with containers := st.containers.set cp { c with bmap := m } }
  | none => st

/-- Write the concrete slot of binding bp (b.concrete = retVal). -/
def setConcrete (st : St) (bp : Nat) (v : Value) : St :=
  match st.binds[bp]? with
  | some b => { st with binds := st.binds.set bp { b with concrete := v } }
  | none => st

/-- reflect.ValueOf(function).Call(arguments): calling with a nil
interface argument (a zero reflect.Value, produced when a dependency
resolved to nil) panics before the function runs (`none`); otherwise the
result values come from the factory environment at the current allocation
seed and the invocation is appended to the log. -/
def callFn (Φ : FnEnv) (id : Nat) (nOuts : Nat) (args : List Value) (st : St) :
    Option (List Value) × St :=
  if Value.nil ∈ args then (none, st)
  else (some ((List.range nOuts).map (fun i => Φ id args st.log.length i)),
    { st with log := st.log ++ [id] })

/-- Container.validateResolverFunction: return count must be 1 or 2 and no
parameter type may equal the first result type. -/
def validateResolverFunction (ins outs : List STy) : Option Err :=
  if outs.length = 0 ∨ outs.length > 2 then some .invalidResolverArity
  else
    match outs with
    | [] => some .invalidResolverArity
    | o0 :: _ => if ins.contains o0 then some .invalidResolverSelfDep else none

/-- Container.bind: function resolvers are validated and stored at key
Out(0); any other value is stored as an instance binding at its own type.
reflect on a nil resolver panics. -/
def bindF (cp : Nat) (resolver : Value) (nm : String) (lt : Lifetime) (st : St) :
    Out Unit × St :=
  match resolver.typeOf with
  | none => (.crash, st)
  | some (.fnTy ins outs) =>
    match validateResolverFunction ins outs with
    | some e => (.err e, st)
    | none =>
      match outs with
      | [] => (.crash, st)
      | o0 :: _ =>
        match getCont st cp with
        | none => (.crash, st)
        | some c =>
          let bp := st.binds.length
          let st1 : St := { st with binds := st.binds ++ [⟨resolver, .nil, lt⟩] }
          (.ok (), setBmap st1 cp (minsert c.bmap (.sTy o0) nm bp))
  | some ty =>
    match getCont st cp with
    | none => (.crash, st)
    | some c =>
      let bp := st.binds.length
      let st1 : St := { st with binds := st.binds ++ [⟨.nil, resolver, lt⟩] }
      (.ok (), setBmap st1 cp (minsert c.bmap ty nm bp))

/-- Container.Register options: empty lifetime defaults to Singleton. -/
structure RegisterOptions where
  Resolver : Value
  Name : String
  Lifetime : Option Lifetime
deriving DecidableEq, Repr

def RegisterF (cp : Nat) (o : RegisterOptions) (st : St) : Out Unit × St :=
  bindF cp o.Resolver o.Name (o.Lifetime.getD .singleton) st

/-- Container.RegisterNamedInstance: rejects function values, binds as
Singleton. -/
def RegisterNamedInstanceF (cp : Nat) (nm : String) (inst : Value) (st : St) :
    Out Unit × St :=
  match inst.typeOf with
  | none => (.crash, st)
  | some (.fnTy _ _) => (.err .invalidResolverInstanceFunc, st)
  | some _ => bindF cp inst nm .singleton st

def RegisterInstanceF (cp : Nat) (inst : Value) (st : St) : Out Unit × St :=
  RegisterNamedInstanceF cp "" inst st

/-- Container.RegisterNamedSingleton: resolver must be a function. -/
def RegisterNamedSingletonF (cp : Nat) (nm : String) (r : Value) (st : St) :
    Out Unit × St :=
  match r.typeOf with
  | none => (.crash, st)
  | some (.fnTy _ _) => bindF cp r nm .singleton st
  | some _ => (.err .invalidResolverNotFunc, st)

def RegisterSingletonF (cp : Nat) (r : Value) (st : St) : Out Unit × St :=
  RegisterNamedSingletonF cp "" r st

def RegisterNamedTransientF (cp : Nat) (nm : String) (r : Value) (st : St) :
    Out Unit × St :=
  match r.typeOf with
  | none => (.crash, st)
  | some (.fnTy _ _) => bindF cp r nm .transient st
  | some _ => (.err .invalidResolverNotFunc, st)

def RegisterTransientF (cp : Nat) (r : Value) (st : St) : Out Unit × St :=
  RegisterNamedTransientF cp "" r st

def RegisterNamedScopedF (cp : Nat) (nm : String) (r : Value) (st : St) :
    Out Unit × St :=
  match r.typeOf with
  | none => (.crash, st)
  | some (.fnTy _ _) => bindF cp r nm .scoped st
  | some _ => (.err .invalidResolverNotFunc, st)

def RegisterScopedF (cp : Nat) (r : Value) (st : St) : Out Unit × St :=
  RegisterNamedScopedF cp "" r st

/-- container.New: allocate an empty container with no parent. -/
def NewC (st : St) : Nat × St :=
  (st.containers.length, { st with containers := st.containers ++ [⟨none, []⟩] })

/-- The loop of Container.NewScope: re-bind every Scoped binding of the
parent into the child, keeping its resolver, name and lifetime. -/
def newScopeLoop (child : Nat) : List (GoTy × String × Nat) → St → Out Nat × St
  | [], st => (.ok child, st)
  | (_, nm, bp) :: rest, st =>
    match getBind st bp with
    | none => (.crash, st)
    | some b =>
      if b.lifetime = .scoped then
        match bindF child b.resolver nm b.lifetime st with
        | (.ok _, st') => newScopeLoop child rest st'
        | (.err e, st') => (.err e, st')
        | (.crash, st') => (.crash, st')
        | (.nofuel, st') => (.nofuel, st')
      else newScopeLoop child rest st

/-- Container.NewScope. -/
def NewScopeF (cp : Nat) (st : St) : Out Nat × St :=
  match getCont st cp with
  | none => (.crash, st)
  | some c =>
    let child := st.containers.length
    let st1 : St := { st with containers := st.containers ++ [⟨some cp, []⟩] }
    newScopeLoop child c.bmap st1

/-- Container.Reset: delete all bindings of this container. -/
def ResetF (cp : Nat) (st : St) : St := setBmap st cp []

/-- The binding-lookup loop of Container.make: search this container's map,
then walk the parent chain; the fuel bounds the chain walk (a cyclic
parent chain diverges). -/
def chainF (cs : List CObj) : Nat → Nat → GoTy → String → Out (Option Nat)
  | 0, _, _, _ => .nofuel
  | n + 1, cp, t, nm =>
    match cs[cp]? with
    | none => .crash
    | some c =>
      match mlookup c.bmap t nm with
      | some bp => .ok (some bp)
      | none =>
        match c.parent with
        | none => .ok none
        | some p => chainF cs n p t nm

mutual

/-- Container.make: locate the nearest binding for (t, name) along the
parent chain and resolve it, passing the requesting container c for
dependency resolution. -/
def makeC (Φ : FnEnv) : Nat → Nat → Nat → GoTy → String → St → Out Value × St
  | 0, _, _, _, _, st => (.nofuel, st)
  | n + 1, cp, cx, t, nm, st =>
    match chainF st.containers st.containers.length cp t nm with
    | .nofuel => (.nofuel, st)
    | .crash => (.crash, st)
    | .err e => (.err e, st)
    | .ok none => (.err (.bindingNotFound t), st)
    | .ok (some bp) => bindingMake Φ n bp cp cx st
termination_by structural n => n

/-- binding.make: return the cached concrete if set, otherwise invoke the
resolver through the requesting container and cache the result for
non-Transient lifetimes when no error occurred. -/
def bindingMake (Φ : FnEnv) : Nat → Nat → Nat → Nat → St → Out Value × St
  | 0, _, _, _, st => (.nofuel, st)
  | n + 1, bp, cp, cx, st =>
    match getBind st bp with
    | none => (.crash, st)
    | some b =>
      if b.concrete ≠ .nil then (.ok b.concrete, st)
      else
        match invoke Φ n cp cx b.resolver st with
        | (.ok v, st') =>
          if b.lifetime ≠ .transient then (.ok v, setConcrete st' bp v)
          else (.ok v, st')
        | (.err e, st') => (.err e, st')
        | (.crash, st') => (.crash, st')
        | (.nofuel, st') => (.nofuel, st')
termination_by structural n => n

/-- Container.invoke: resolve the function's arguments, call it, and if it
returned two values whose second implements error, report that error;
reflect on a non-function panics, as do indexing an empty result list and
calling with a nil (zero reflect.Value) argument. -/
def invoke (Φ : FnEnv) : Nat → Nat → Nat → Value → St → Out Value × St
  | 0, _, _, _, st => (.nofuel, st)
  | n + 1, cp, cx, f, st =>
    match f with
    | .fnV ins outs id =>
      match argumentsL Φ n cp cx ins st with
      | (.ok args, st1) =>
        match callFn Φ id outs.length args st1 with
        | (none, st2) => (.crash, st2)
        | (some vals, st2) =>
          match vals with
          | [] => (.crash, st2)
          | [v0] => (.ok v0, st2)
          | [v0, v1] =>
            match v1 with
            | .errV _ tag => (.err (.userErr tag), st2)
            | _ => (.ok v0, st2)
          | v0 :: _ :: _ :: _ => (.ok v0, st2)
      | (.err e, st1) => (.err e, st1)
      | (.crash, st1) => (.crash, st1)
      | (.nofuel, st1) => (.nofuel, st1)
    | _ => (.crash, st)
termination_by structural n => n

/-- Container.arguments: resolve each parameter type in order; a type
implementing context.Context receives the ambient context, everything else
is resolved through Container.make with the empty name; the first failure
aborts wrapped in ResolutionFailed. -/
def argumentsL (Φ : FnEnv) : Nat → Nat → Nat → List STy → St → Out (List Value) × St
  | 0, _, _, _, st => (.nofuel, st)
  | _ + 1, _, _, [], st => (.ok [], st)
  | n + 1, cp, cx, a :: rest, st =>
    if a = .ctx then
      match argumentsL Φ n cp cx rest st with
      | (.ok vs, st1) => (.ok (.ctxV cx :: vs), st1)
      | (.err e, st1) => (.err e, st1)
      | (.crash, st1) => (.crash, st1)
      | (.nofuel, st1) => (.nofuel, st1)
    else
      match makeC Φ n cp cx (.sTy a) "" st with
      | (.ok v, st1) =>
        match argumentsL Φ n cp cx rest st1 with
        | (.ok vs, st2) => (.ok (v :: vs), st2)
        | (.err e, st2) => (.err e, st2)
        | (.crash, st2) => (.crash, st2)
        | (.nofuel, st2) => (.nofuel, st2)
      | (.err e, st1) => (.err (.resolutionFailedArg (.sTy a) e), st1)
      | (.crash, st1) => (.crash, st1)
      | (.nofuel, st1) => (.nofuel, st1)
termination_by structural n => n

end

/-- reflect kinds on which Value.IsNil is legal. -/
def nilable : STy → Bool
  | .ctx => true
  | .base _ nb => nb

/-- Container.Call: nil context is rejected first, then a non-function
receiver; calling with a nil resolved argument panics; after invoking, no
result means success, a single nil result of a nilable kind means success,
a single error result is returned, a single result of a non-nilable kind
panics in reflect.Value.IsNil, and every other shape is
ErrInvalidReceiver. -/
def CallF (Φ : FnEnv) (n cp : Nat) (ctx : Option Nat) (f : Value) (st : St) :
    Out Unit × St :=
  match ctx with
  | none => (.err .contextRequired, st)
  | some cx =>
    match f with
    | .fnV ins outs id =>
      match argumentsL Φ n cp cx ins st with
      | (.ok args, st1) =>
        match callFn Φ id outs.length args st1 with
        | (none, st2) => (.crash, st2)
        | (some vals, st2) =>
          match outs, vals with
          | [], _ => (.ok (), st2)
          | [o0], v0 :: _ =>
            if nilable o0 = false then (.crash, st2)
            else if v0 = .nil then (.ok (), st2)
            else
              match v0 with
              | .errV _ tag => (.err (.userErr tag), st2)
              | _ => (.err .invalidReceiver, st2)
          | [_], [] => (.crash, st2)
          | _ :: _ :: _, _ => (.err .invalidReceiver, st2)
      | (.err e, st1) => (.err e, st1)
      | (.crash, st1) => (.crash, st1)
      | (.nofuel, st1) => (.nofuel, st1)
    | _ => (.err .invalidReceiver, st)

/-- The shape of the abstraction argument passed to Resolve/ResolveNamed:
nil, a non-pointer, or a pointer whose element type is the lookup key. -/
inductive RTarget where
  | nilT : RTarget
  | nonPtr : RTarget
  | ptrTo : GoTy → RTarget
deriving DecidableEq, Repr

/-- Container.ResolveNamed: nil context first, then abstraction shape
checks, then Container.make; a nil resolved instance panics in
reflect.Value.Set (reflect.ValueOf(nil) is the zero Value); failures are
wrapped in ResolutionFailed with the type and name. -/
def ResolveNamedF (Φ : FnEnv) (n cp : Nat) (ctx : Option Nat) (nm : String)
    (a : RTarget) (st : St) : Out Value × St :=
  match ctx with
  | none => (.err .contextRequired, st)
  | some cx =>
    match a with
    | .nilT => (.err .invalidAbstraction, st)
    | .nonPtr => (.err .invalidAbstraction, st)
    | .ptrTo elem =>
      match makeC Φ n cp cx elem nm st with
      | (.ok v, st1) => if v = .nil then (.crash, st1) else (.ok v, st1)
      | (.err e, st1) => (.err (.resolutionFailed elem nm e), st1)
      | (.crash, st1) => (.crash, st1)
      | (.nofuel, st1) => (.nofuel, st1)

def ResolveF (Φ : FnEnv) (n cp : Nat) (ctx : Option Nat) (a : RTarget) (st : St) :
    Out Value × St :=
  ResolveNamedF Φ n cp ctx "" a st

/-- A struct field as seen by Fill: its identifier, declared type, and the
value of the container struct tag when present. -/
structure FieldInfo where
  fname : String
  fty : GoTy
  tag : Option String
deriving DecidableEq, Repr

/-- The shape of the structure argument passed to Fill. -/
inductive FTarget where
  | nilT : FTarget
  | nonPtr : FTarget
  | ptrNonStruct : FTarget
  | ptrStruct : List FieldInfo → FTarget
deriving DecidableEq, Repr

/-- The field loop of Container.Fill; the returned list records the field
writes performed, in order.  A field whose resolution yields a nil
instance panics in ptr.Set (reflect.ValueOf(nil) is the zero Value). -/
def fillLoop (Φ : FnEnv) (n cp cx : Nat) :
    List FieldInfo → St → List (String × Value) → Out Unit × St × List (String × Value)
  | [], st, acc => (.ok (), st, acc)
  | f :: rest, st, acc =>
    match f.tag with
    | none => fillLoop Φ n cp cx rest st acc
    | some tg =>
      if tg = "type" then
        match makeC Φ n cp cx f.fty "" st with
        | (.ok v, st1) =>
          if v = .nil then (.crash, st1, acc)
          else fillLoop Φ n cp cx rest st1 (acc ++ [(f.fname, v)])
        | (.err e, st1) => (.err (.resolutionFailedField f.fname e), st1, acc)
        | (.crash, st1) => (.crash, st1, acc)
        | (.nofuel, st1) => (.nofuel, st1, acc)
      else if tg = "name" then
        match makeC Φ n cp cx f.fty f.fname st with
        | (.ok v, st1) =>
          if v = .nil then (.crash, st1, acc)
          else fillLoop Φ n cp cx rest st1 (acc ++ [(f.fname, v)])
        | (.err e, st1) => (.err (.resolutionFailedField f.fname e), st1, acc)
        | (.crash, st1) => (.crash, st1, acc)
        | (.nofuel, st1) => (.nofuel, st1, acc)
      else (.err (.invalidStructureTag f.fname), st, acc)

/-- Container.Fill: nil context first, then structure shape checks, then
the field loop. -/
def FillF (Φ : FnEnv) (n cp : Nat) (ctx : Option Nat) (target : FTarget) (st : St) :
    Out Unit × St × List (String × Value) :=
  match ctx with
  | none => (.err .contextRequired, st, [])
  | some cx =>
    match target with
    | .nilT => (.err .invalidStructure, st, [])
    | .nonPtr => (.err .invalidStructure, st, [])
    | .ptrNonStruct => (.err .invalidStructure, st, [])
    | .ptrStruct fields => fillLoop Φ n cp cx fields st []

/-- The loop of Container.Validate over this container's own bindings. -/
def validateLoop (Φ : FnEnv) (n cp cx : Nat) :
    List (GoTy × String × Nat) → St → Out Unit × St
  | [], st => (.ok (), st)
  | (t, nm, _) :: rest, st =>
    match makeC Φ n cp cx t nm st with
    | (.ok _, st1) => validateLoop Φ n cp cx rest st1
    | (.err e, st1) => (.err e, st1)
    | (.crash, st1) => (.crash, st1)
    | (.nofuel, st1) => (.nofuel, st1)

/-- Container.Validate: nil context first, then resolve every binding
registered in this container, returning the first failure. -/
def ValidateF (Φ : FnEnv) (n cp : Nat) (ctx : Option Nat) (st : St) : Out Unit × St :=
  match ctx with
  | none => (.err .contextRequired, st)
  | some cx =>
    match getCont st cp with
    | none => (.crash, st)
    | some c => validateLoop Φ n cp cx c.bmap st

/-- Seed-injective, never-nil factories: each invocation returns a fresh
non-nil instance, modelling factories that allocate their result. -/
def FreshFactory (Φ : FnEnv) (id : Nat) : Prop :=
  (∀ args s args' s', Φ id args s 0 = Φ id args' s' 0 → s = s') ∧
  (∀ args s, Φ id args s 0 ≠ .nil)

/-- Lookup of a key directly in container cp of a state. -/
def mlookupC (st : St) (cp : Nat) (t : GoTy) (nm : String) : Option Nat :=
  match getCont st cp with
  | some c => mlookup c.bmap t nm
  | none => none

/-- The map key a registration writes: Out(0) for function resolvers, the
value's own type for instance bindings; none when binding would panic or
be rejected for a missing return type. -/
def regKey (r : Value) : Option GoTy :=
  match r.typeOf with
  | some (.fnTy _ outs) => (outs.head?).map GoTy.sTy
  | some ty => some ty
  | none => none

/-- Wellformedness of one bindings-map entry for scope copying: the
binding exists, and if Scoped its resolver is a validated function whose
first return type is the entry's key. -/
def scopedKeyOK (binds : List Binding) (e : GoTy × String × Nat) : Prop :=
  ∃ b, binds[e.2.2]? = some b ∧
    (b.lifetime = .scoped →
      ∃ ins o0 orest id, b.resolver = .fnV ins (o0 :: orest) id ∧
        validateResolverFunction ins (o0 :: orest) = none ∧ GoTy.sTy o0 = e.1)

/-- Distinctness of the (type, name) keys of two map entries. -/
def keyNe (e e' : GoTy × String × Nat) : Prop := (e.1, e.2.1) ≠ (e'.1, e'.2.1)

/-- State evolution along the resolution engine: containers untouched, the
invocation log only grows, and every binding keeps its resolver and
lifetime (only concrete slots are written by the engine). -/
def stEvo (st st' : St) : Prop :=
  st'.containers = st.containers ∧
  st.log <+: st'.log ∧
  ∀ bp : Nat, (st'.binds[bp]?).map (fun (b : Binding) => (b.resolver, b.lifetime)) =
        (st.binds[bp]?).map (fun (b : Binding) => (b.resolver, b.lifetime))

/-- Frame property of a registration: old bindings untouched, other
containers untouched, and every other key of the target container looks up
as before. -/
def frameAt (st st' : St) (cp : Nat) (key : Option GoTy) (nm : String) : Prop :=
  (∀ i, i < st.binds.length → st'.binds[i]? = st.binds[i]?) ∧
  (∀ j, j ≠ cp → st'.containers[j]? = st.containers[j]?) ∧
  (∀ t' nm' k, key = some k → (t', nm') ≠ (k, nm) →
    mlookupC st' cp t' nm' = mlookupC st cp t' nm')

/- Concrete scenario material used by witnesses and counterexamples. -/

/-- A Shape-like nilable simple type. -/
def wS : STy := .base 1 true

def wT : GoTy := .sTy wS

/-- A second nilable simple type, used as a dependency. -/
def wU : STy := .base 2 true

def wUT : GoTy := .sTy wU

/-- An int-like simple type of non-nilable reflect kind. -/
def wIntS : STy := .base 3 false

/-- A state holding one freshly created empty container (index 0). -/
def stRoot : St := ⟨[⟨none, []⟩], [], []⟩

/-- A factory environment that allocates: returns a fresh object tagged by
the allocation seed on every invocation. -/
def PhiAlloc : FnEnv := fun _ _ s _ => .obj wT (100 + s)

/-- A factory environment whose factories always return nil. -/
def PhiNil : FnEnv := fun _ _ _ _ => .nil

/-- A factory environment whose factories return one shared instance. -/
def PhiConst : FnEnv := fun _ _ _ _ => .obj wT 7

/-- A factory environment whose factory fails (second return value is an
error) at seed 0 and succeeds at any later seed. -/
def PhiRetry : FnEnv := fun _ _ s i =>
  if i = 0 then .obj wT (100 + s) else if s = 0 then .errV wT 9 else .nil

/-- A factory environment whose factory fails (error second result) at
seed 0, and at any later seed succeeds (nil error) but with a nil first
result. -/
def PhiRetryNil : FnEnv := fun _ _ s i =>
  if s = 0 then (if i = 0 then .obj wT 5 else .errV wT 9)
  else .nil

/-- A factory environment for the dependency-caching scenario: factory 1
(the dependency) allocates an instance of the dependency type, factory 0
(the requested resolver) consumes it and fails with an error second
result. -/
def PhiDepErr : FnEnv := fun id _ _ i =>
  if id = 1 then .obj wUT 77
  else if i = 0 then .obj wT 5 else .errV wT 9

/-- A factory environment forwarding the tag of its first argument. -/
def PhiDep : FnEnv := fun _ args _ _ =>
  match args.head? with
  | some (.obj _ k) => .obj wT k
  | _ => .nil

def stC1 : St := (RegisterSingletonF 0 (.fnV [] [wS] 0) stRoot).2

def stC1a : St := (ResolveNamedF PhiAlloc 5 0 (some 0) "" (.ptrTo wT) stC1).2

def stC2 : St := (RegisterSingletonF 0 (.fnV [] [wS, wS] 0) stRoot).2

/-- A root container holding an erroring resolver for the Shape type that
depends on the U type, and a Singleton factory binding for U. -/
def stC2d : St :=
  (RegisterSingletonF 0 (.fnV [] [wU] 1) (RegisterSingletonF 0 (.fnV [wU] [wS, wS] 0) stRoot).2).2

def stC3 : St := (RegisterScopedF 0 (.fnV [] [wS] 0) stRoot).2

def stC3A : St := (NewScopeF 0 stC3).2

def stC3Ar : St := (ResolveNamedF PhiAlloc 5 1 (some 0) "" (.ptrTo wT) stC3A).2

def stC3B : St := (NewScopeF 0 stC3Ar).2

def stC5 : St := (RegisterInstanceF 0 (.obj wT 44) stRoot).2

def fldA : FieldInfo := ⟨"A", wT, some "type"⟩

def fldB : FieldInfo := ⟨"B", wT, some "bogus"⟩

def stC8a : St := (RegisterSingletonF 0 (.fnV [wU] [wS] 1) stRoot).2

def stC8b : St := (RegisterInstanceF 0 (.obj wUT 50) stC8a).2

def stC8c : St := (NewScopeF 0 stC8b).2

def stC8 : St := (RegisterInstanceF 1 (.obj wUT 60) stC8c).2

def stC3Br : St := (ResolveNamedF PhiAlloc 5 2 (some 0) "" (.ptrTo wT) stC3B).2

def stC3Cr : St := (ResolveF PhiConst 5 1 (some 0) (.ptrTo wT) stC3A).2

def stC3CB : St := (NewScopeF 0 stC3Cr).2

-- THEOREMS

theorem mlookup_minsert_self (m : List (GoTy × String × Nat)) (t : GoTy) (nm : String)
    (bp : Nat) : mlookup (minsert m t nm bp) t nm = some bp := by
  induction m with
  | nil => simp [minsert, mlookup]
  | cons e rest ih =>
    obtain ⟨t', nm', bp'⟩ := e
    by_cases h : t' = t ∧ nm' = nm
    · simp [minsert, h, mlookup]
    · simp only [minsert, if_neg h, mlookup]
      exact ih

theorem mlookup_minsert_other (m : List (GoTy × String × Nat)) (t : GoTy) (nm : String)
    (bp : Nat) (t' : GoTy) (nm' : String) (h : (t', nm') ≠ (t, nm)) :
    mlookup (minsert m t nm bp) t' nm' = mlookup m t' nm' := by
  have hne : ¬(t = t' ∧ nm = nm') := by
    intro hc
    exact h (by simp [Prod.mk.injEq, hc.1.symm, hc.2.symm])
  induction m with
  | nil => simp [minsert, mlookup, if_neg hne]
  | cons e rest ih =>
    obtain ⟨ta, na, ba⟩ := e
    by_cases he : ta = t ∧ na = nm
    · have hna : ¬(ta = t' ∧ na = nm') := by
        intro hc
        exact h (by simp [Prod.mk.injEq, ← hc.1, ← hc.2, he.1, he.2])
      simp only [minsert, if_pos he, mlookup, if_neg hne, if_neg hna]
    · simp only [minsert, if_neg he, mlookup]
      by_cases ha : ta = t' ∧ na = nm'
      · rw [if_pos ha, if_pos ha]
      · rw [if_neg ha, if_neg ha, ih]

theorem mlookup_eq_of_mem (m : List (GoTy × String × Nat)) (t : GoTy) (nm : String)
    (bp : Nat) (hmem : (t, nm, bp) ∈ m) (hnd : List.Pairwise keyNe m) :
    mlookup m t nm = some bp := by
  induction m with
  | nil => cases hmem
  | cons e rest ih =>
    obtain ⟨ta, na, ba⟩ := e
    rcases List.mem_cons.mp hmem with h | h
    · rw [← h]
      simp [mlookup]
    · have hne : keyNe (ta, na, ba) (t, nm, bp) := (List.pairwise_cons.mp hnd).1 _ h
      have hc : ¬(ta = t ∧ na = nm) := by
        intro hc
        exact hne (by simp [keyNe, Prod.mk.injEq, hc.1, hc.2])
      simp only [mlookup, if_neg hc]
      exact ih h (List.pairwise_cons.mp hnd).2

theorem stEvo_refl (st : St) : stEvo st st := ⟨rfl, List.prefix_rfl, fun _ => rfl⟩

theorem stEvo_trans {s1 s2 s3 : St} (h1 : stEvo s1 s2) (h2 : stEvo s2 s3) : stEvo s1 s3 :=
  ⟨h2.1.trans h1.1, h1.2.1.trans h2.2.1, fun bp => (h2.2.2 bp).trans (h1.2.2 bp)⟩

theorem setConcrete_evo (st : St) (bp : Nat) (v : Value) : stEvo st (setConcrete st bp v) := by
  unfold setConcrete
  cases h : st.binds[bp]? with
  | none => exact stEvo_refl st
  | some b =>
    refine ⟨rfl, List.prefix_rfl, fun i => ?_⟩
    by_cases hi : bp = i
    · subst hi
      have hlt : bp < st.binds.length := by
        rcases List.getElem?_eq_some.mp h with ⟨hl, _⟩
        exact hl
      simp [List.getElem?_set_self hlt, h]
    · simp [List.getElem?_set_ne hi]

theorem callFn_evo (Φ : FnEnv) (id nOuts : Nat) (args : List Value) (st : St) :
    stEvo st (callFn Φ id nOuts args st).2 := by
  unfold callFn
  split
  · exact stEvo_refl st
  · exact ⟨rfl, List.prefix_append _ _, fun _ => rfl⟩

theorem engineEvo (Φ : FnEnv) :
    ∀ n : Nat,
      (∀ cp cx t nm st, stEvo st (makeC Φ n cp cx t nm st).2) ∧
      (∀ bp cp cx st, stEvo st (bindingMake Φ n bp cp cx st).2) ∧
      (∀ cp cx f st, stEvo st (invoke Φ n cp cx f st).2) ∧
      (∀ cp cx ins st, stEvo st (argumentsL Φ n cp cx ins st).2) := by
  intro n
  induction n with
  | zero =>
    refine ⟨fun cp cx t nm st => ?_, fun bp cp cx st => ?_,
            fun cp cx f st => ?_, fun cp cx ins st => ?_⟩ <;>
      simp only [makeC, bindingMake, invoke, argumentsL] <;> exact stEvo_refl st
  | succ n ih =>
    obtain ⟨ihm, ihb, ihi, iha⟩ := ih
    refine ⟨fun cp cx t nm st => ?_, fun bp cp cx st => ?_,
            fun cp cx f st => ?_, fun cp cx ins st => ?_⟩
    · simp only [makeC]
      split
      · exact stEvo_refl st
      · exact stEvo_refl st
      · exact stEvo_refl st
      · exact stEvo_refl st
      · rename_i bp _
        exact ihb bp cp cx st
    · simp only [bindingMake]
      split
      · exact stEvo_refl st
      · rename_i b hb
        split
        · exact stEvo_refl st
        · split
          · rename_i v st' heq
            have hevo := ihi cp cx b.resolver st
            rw [heq] at hevo
            split
            · exact stEvo_trans hevo (setConcrete_evo st' bp v)
            · exact hevo
          · rename_i e st' heq
            have hevo := ihi cp cx b.resolver st
            rw [heq] at hevo
            exact hevo
          · rename_i st' heq
            have hevo := ihi cp cx b.resolver st
            rw [heq] at hevo
            exact hevo
          · rename_i st' heq
            have hevo := ihi cp cx b.resolver st
            rw [heq] at hevo
            exact hevo
    · cases f with
      | nil => simp only [invoke]; exact stEvo_refl st
      | obj ty tag => simp only [invoke]; exact stEvo_refl st
      | errV ty tag => simp only [invoke]; exact stEvo_refl st
      | ctxV c => simp only [invoke]; exact stEvo_refl st
      | fnV ins outs id =>
        simp only [invoke]
        split
        · rename_i args st1 heq
          have hevo := iha cp cx ins st
          rw [heq] at hevo
          have htot : stEvo st (callFn Φ id outs.length args st1).2 :=
            stEvo_trans hevo (callFn_evo Φ id outs.length args st1)
          split
          · rename_i st2 heq2
            rw [heq2] at htot
            exact htot
          · rename_i vals st2 heq2
            rw [heq2] at htot
            split
            · exact htot
            · exact htot
            · split
              · exact htot
              · exact htot
            · exact htot
        · rename_i e st1 heq
          have hevo := iha cp cx ins st
          rw [heq] at hevo
          exact hevo
        · rename_i st1 heq
          have hevo := iha cp cx ins st
          rw [heq] at hevo
          exact hevo
        · rename_i st1 heq
          have hevo := iha cp cx ins st
          rw [heq] at hevo
          exact hevo
    · cases ins with
      | nil =>
        simp only [argumentsL]
        exact stEvo_refl st
      | cons a rest =>
        simp only [argumentsL]
        split
        · split
          · rename_i vs st1 heq
            have hevo := iha cp cx rest st
            rw [heq] at hevo
            exact hevo
          · rename_i e st1 heq
            have hevo := iha cp cx rest st
            rw [heq] at hevo
            exact hevo
          · rename_i st1 heq
            have hevo := iha cp cx rest st
            rw [heq] at hevo
            exact hevo
          · rename_i st1 heq
            have hevo := iha cp cx rest st
            rw [heq] at hevo
            exact hevo
        · split
          · rename_i v st1 heq
            have hevo := ihm cp cx (GoTy.sTy a) "" st
            rw [heq] at hevo
            split
            · rename_i vs st2 heq2
              have hevo2 := iha cp cx rest st1
              rw [heq2] at hevo2
              exact stEvo_trans hevo hevo2
            · rename_i e st2 heq2
              have hevo2 := iha cp cx rest st1
              rw [heq2] at hevo2
              exact stEvo_trans hevo hevo2
            · rename_i st2 heq2
              have hevo2 := iha cp cx rest st1
              rw [heq2] at hevo2
              exact stEvo_trans hevo hevo2
            · rename_i st2 heq2
              have hevo2 := iha cp cx rest st1
              rw [heq2] at hevo2
              exact stEvo_trans hevo hevo2
          · rename_i e st1 heq
            have hevo := ihm cp cx (GoTy.sTy a) "" st
            rw [heq] at hevo
            exact hevo
          · rename_i st1 heq
            have hevo := ihm cp cx (GoTy.sTy a) "" st
            rw [heq] at hevo
            exact hevo
          · rename_i st1 heq
            have hevo := ihm cp cx (GoTy.sTy a) "" st
            rw [heq] at hevo
            exact hevo

theorem makeC_evo (Φ : FnEnv) (n cp cx : Nat) (t : GoTy) (nm : String) (st : St) :
    stEvo st (makeC Φ n cp cx t nm st).2 := ((engineEvo Φ n).1) cp cx t nm st

theorem bindingMake_evo (Φ : FnEnv) (n bp cp cx : Nat) (st : St) :
    stEvo st (bindingMake Φ n bp cp cx st).2 := ((engineEvo Φ n).2.1) bp cp cx st

theorem invoke_evo (Φ : FnEnv) (n cp cx : Nat) (f : Value) (st : St) :
    stEvo st (invoke Φ n cp cx f st).2 := ((engineEvo Φ n).2.2.1) cp cx f st

theorem argumentsL_evo (Φ : FnEnv) (n cp cx : Nat) (ins : List STy) (st : St) :
    stEvo st (argumentsL Φ n cp cx ins st).2 := ((engineEvo Φ n).2.2.2) cp cx ins st

theorem getBind_setConcrete_self (st : St) (bp : Nat) (v : Value) (b : Binding)
    (hb : getBind st bp = some b) :
    getBind (setConcrete st bp v) bp = some { b with concrete := v } := by
  unfold getBind at hb
  have hlt : bp < st.binds.length := (List.getElem?_eq_some.mp hb).1
  unfold setConcrete getBind
  rw [hb]
  simp [List.getElem?_set_self hlt]

theorem makeC_cached (Φ : FnEnv) (n cp cx : Nat) (t : GoTy) (nm : String) (st : St)
    (bp : Nat) (b : Binding)
    (hc : chainF st.containers st.containers.length cp t nm = .ok (some bp))
    (hb : getBind st bp = some b) (hne : b.concrete ≠ .nil) :
    makeC Φ (n + 2) cp cx t nm st = (.ok b.concrete, st) := by
  simp only [makeC, hc, bindingMake, hb]
  rw [if_pos hne]

theorem makeC_ok_elim (Φ : FnEnv) (n cp cx : Nat) (t : GoTy) (nm : String) (st st' : St)
    (v : Value) (bp : Nat)
    (h : makeC Φ n cp cx t nm st = (.ok v, st'))
    (hc : chainF st.containers st.containers.length cp t nm = .ok (some bp)) :
    ∃ m, n = m + 1 ∧ bindingMake Φ m bp cp cx st = (.ok v, st') := by
  cases n with
  | zero => simp [makeC] at h
  | succ n =>
    refine ⟨n, rfl, ?_⟩
    simp only [makeC, hc] at h
    exact h

theorem bindingMake_ok_concrete (Φ : FnEnv) (n bp cp cx : Nat) (st st' : St) (v : Value)
    (b : Binding) (h : bindingMake Φ n bp cp cx st = (.ok v, st'))
    (hb : getBind st bp = some b) (hlt : b.lifetime ≠ .transient) :
    ∃ b', getBind st' bp = some b' ∧ b'.concrete = v ∧
      b'.resolver = b.resolver ∧ b'.lifetime = b.lifetime := by
  cases n with
  | zero => simp [bindingMake] at h
  | succ n =>
    simp only [bindingMake, hb] at h
    by_cases hcn : b.concrete = Value.nil
    · rw [if_neg (not_not_intro hcn)] at h
      split at h
      · rename_i v0 st0 heq
        rw [if_pos hlt] at h
        injection h with h1 h2
        injection h1 with h1
        subst h1
        subst h2
        have hevo := invoke_evo Φ n cp cx b.resolver st
        rw [heq] at hevo
        have hevo2 : stEvo st st0 := hevo
        have hmap := hevo2.2.2 bp
        have hb' : st.binds[bp]? = some b := hb
        rw [hb'] at hmap
        cases hbp0 : st0.binds[bp]? with
        | none => rw [hbp0] at hmap; simp at hmap
        | some b0 =>
          rw [hbp0] at hmap
          simp only [Option.map, Option.some.injEq, Prod.mk.injEq] at hmap
          have hb0 : getBind st0 bp = some b0 := hbp0
          exact ⟨{ b0 with concrete := v0 }, getBind_setConcrete_self st0 bp v0 b0 hb0, rfl,
            hmap.1, hmap.2⟩
      · rename_i e st0 heq
        simp at h
      · rename_i st0 heq
        simp at h
      · rename_i st0 heq
        simp at h
    · rw [if_pos hcn] at h
      injection h with h1 h2
      injection h1 with h1
      refine ⟨b, ?_, h1, rfl, rfl⟩
      rw [← h2]
      exact hb

theorem callFn_some_elim (Φ : FnEnv) (id k : Nat) (args : List Value) (st st2 : St)
    (vals : List Value) (h : callFn Φ id k args st = (some vals, st2)) :
    vals = (List.range k).map (fun i => Φ id args st.log.length i) ∧
    st2 = { st with log := st.log ++ [id] } ∧ Value.nil ∉ args := by
  unfold callFn at h
  split at h
  · simp at h
  · rename_i hnn
    injection h with h1 h2
    injection h1 with h1
    exact ⟨h1.symm, h2.symm, hnn⟩

theorem range_map_head (L : Nat) (f : Nat → Value) (v0 : Value) (rest : List Value)
    (h : (List.range L).map f = v0 :: rest) : v0 = f 0 := by
  cases L with
  | zero => simp at h
  | succ L =>
    rw [List.range_succ_eq_map] at h
    simp only [List.map_cons] at h
    exact (List.cons.inj h).1.symm

theorem invoke_ok_shape (Φ : FnEnv) (n cp cx : Nat) (ins outs : List STy) (id : Nat)
    (st st' : St) (v : Value)
    (h : invoke Φ n cp cx (.fnV ins outs id) st = (.ok v, st')) :
    ∃ args s, st.log.length ≤ s ∧ v = Φ id args s 0 ∧ st'.log.length = s + 1 := by
  cases n with
  | zero => simp [invoke] at h
  | succ n =>
    simp only [invoke] at h
    split at h
    · rename_i args st1 heqA
      have hevo : stEvo st st1 := by
        have := argumentsL_evo Φ n cp cx ins st
        rw [heqA] at this
        exact this
      have hslen : st.log.length ≤ st1.log.length := hevo.2.1.length_le
      split at h
      · simp at h
      · rename_i vals st2 heq2
        obtain ⟨hvals, hst2, _⟩ := callFn_some_elim Φ id outs.length args st1 st2 vals heq2
        split at h
        · simp at h
        · rename_i v0
          injection h with h1 h2
          injection h1 with h1
          refine ⟨args, st1.log.length, hslen, ?_, ?_⟩
          · rw [← h1]
            exact range_map_head _ _ _ _ hvals.symm
          · rw [← h2, hst2]
            simp
        · rename_i v0 v1
          split at h
          · simp at h
          · injection h with h1 h2
            injection h1 with h1
            refine ⟨args, st1.log.length, hslen, ?_, ?_⟩
            · rw [← h1]
              exact range_map_head _ _ _ _ hvals.symm
            · rw [← h2, hst2]
              simp
        · rename_i v0 w1 w2 wrest
          injection h with h1 h2
          injection h1 with h1
          refine ⟨args, st1.log.length, hslen, ?_, ?_⟩
          · rw [← h1]
            exact range_map_head _ _ _ _ hvals.symm
          · rw [← h2, hst2]
            simp
    · rename_i e st1 heqA
      simp at h
    · rename_i st1 heqA
      simp at h
    · rename_i st1 heqA
      simp at h

theorem bindingMake_fresh_shape (Φ : FnEnv) (n bp cp cx : Nat) (st st' : St) (v : Value)
    (b : Binding) (ins outs : List STy) (id : Nat)
    (h : bindingMake Φ n bp cp cx st = (.ok v, st'))
    (hb : getBind st bp = some b) (hcn : b.concrete = .nil)
    (hr : b.resolver = .fnV ins outs id) :
    ∃ args s, st.log.length ≤ s ∧ v = Φ id args s 0 ∧ s + 1 ≤ st'.log.length := by
  cases n with
  | zero => simp [bindingMake] at h
  | succ n =>
    simp only [bindingMake, hb] at h
    rw [if_neg (not_not_intro hcn), hr] at h
    split at h
    · rename_i v0 st0 heqI
      obtain ⟨args, s, hs1, hv0, hlog⟩ := invoke_ok_shape Φ n cp cx ins outs id st st0 v0 heqI
      by_cases hlt : b.lifetime = Lifetime.transient
      · rw [if_neg (not_not_intro hlt)] at h
        injection h with h1 h2
        injection h1 with h1
        refine ⟨args, s, hs1, ?_, ?_⟩
        · rw [← h1]; exact hv0
        · rw [← h2]; omega
      · rw [if_pos hlt] at h
        injection h with h1 h2
        injection h1 with h1
        have hsc : (setConcrete st0 bp v0).log = st0.log := by
          unfold setConcrete
          cases hx : st0.binds[bp]? <;> simp
        refine ⟨args, s, hs1, ?_, ?_⟩
        · rw [← h1]; exact hv0
        · rw [← h2, hsc]; omega
    · rename_i e st0 heqI
      simp at h
    · rename_i st0 heqI
      simp at h
    · rename_i st0 heqI
      simp at h

theorem resolveNamed_ok_elim (Φ : FnEnv) (n cp cx : Nat) (nm : String) (t : GoTy)
    (st st' : St) (v : Value)
    (h : ResolveNamedF Φ n cp (some cx) nm (.ptrTo t) st = (.ok v, st')) :
    makeC Φ n cp cx t nm st = (.ok v, st') ∧ v ≠ .nil := by
  simp only [ResolveNamedF] at h
  split at h
  · rename_i v0 st0 heq
    split at h
    · simp at h
    · rename_i hv0
      injection h with h1 h2
      injection h1 with h1
      rw [← h1, ← h2]
      exact ⟨heq, hv0⟩
  · simp at h
  · simp at h
  · simp at h

theorem chainF_local (cs : List CObj) (n cp : Nat) (t : GoTy) (nm : String) (c : CObj)
    (bp : Nat) (hc : cs[cp]? = some c) (h : mlookup c.bmap t nm = some bp) :
    chainF cs (n + 1) cp t nm = .ok (some bp) := by
  simp only [chainF, hc, h]

theorem resolve_after_success (Φ Φ' : FnEnv) (n cp cx : Nat) (nm : String) (t : GoTy)
    (st st' : St) (v : Value) (bp : Nat) (b : Binding)
    (h : ResolveNamedF Φ n cp (some cx) nm (.ptrTo t) st = (.ok v, st'))
    (hc : chainF st.containers st.containers.length cp t nm = .ok (some bp))
    (hb : getBind st bp = some b) (hlt : b.lifetime ≠ .transient) :
    (∃ b', getBind st' bp = some b' ∧ b'.concrete = v ∧ b'.resolver = b.resolver ∧
       b'.lifetime = b.lifetime) ∧
    (∀ m cx', ResolveNamedF Φ' (m + 2) cp (some cx') nm (.ptrTo t) st' = (.ok v, st')) := by
  obtain ⟨hm, hv⟩ := resolveNamed_ok_elim Φ n cp cx nm t st st' v h
  obtain ⟨k, hk, hbm⟩ := makeC_ok_elim Φ n cp cx t nm st st' v bp hm hc
  obtain ⟨b', hb', hcon, hres, hlts⟩ := bindingMake_ok_concrete Φ k bp cp cx st st' v b hbm hb hlt
  have hevo : stEvo st st' := by
    have := makeC_evo Φ n cp cx t nm st
    rw [hm] at this
    exact this
  refine ⟨⟨b', hb', hcon, hres, hlts⟩, fun m cx' => ?_⟩
  have hc' : chainF st'.containers st'.containers.length cp t nm = .ok (some bp) := by
    rw [hevo.1]
    exact hc
  have hcache := makeC_cached Φ' m cp cx' t nm st' bp b' hc' hb' (by rw [hcon]; exact hv)
  simp [ResolveNamedF, hcache, hcon, hv]

theorem resolve_fresh_shape (Φ : FnEnv) (n cp cx : Nat) (nm : String) (t : GoTy)
    (st st' : St) (v : Value) (bp : Nat) (b : Binding) (ins outs : List STy) (id : Nat)
    (h : ResolveNamedF Φ n cp (some cx) nm (.ptrTo t) st = (.ok v, st'))
    (hc : chainF st.containers st.containers.length cp t nm = .ok (some bp))
    (hb : getBind st bp = some b) (hcn : b.concrete = .nil)
    (hr : b.resolver = .fnV ins outs id) :
    ∃ args s, st.log.length ≤ s ∧ v = Φ id args s 0 ∧ s + 1 ≤ st'.log.length := by
  have hm := (resolveNamed_ok_elim Φ n cp cx nm t st st' v h).1
  obtain ⟨k, hk, hbm⟩ := makeC_ok_elim Φ n cp cx t nm st st' v bp hm hc
  exact bindingMake_fresh_shape Φ k bp cp cx st st' v b ins outs id hbm hb hcn hr

theorem newScopeLoop_spec (cp child : Nat) :
    ∀ (l : List (GoTy × String × Nat)) (s : St) (m : List (GoTy × String × Nat)),
      s.containers[child]? = some ⟨some cp, m⟩ →
      (∀ e ∈ l, scopedKeyOK s.binds e) →
      List.Pairwise keyNe l →
      ∃ s' m',
        newScopeLoop child l s = (.ok child, s') ∧
        s'.containers[child]? = some ⟨some cp, m'⟩ ∧
        s'.containers.length = s.containers.length ∧
        (∀ j, j ≠ child → s'.containers[j]? = s.containers[j]?) ∧
        (∀ i, i < s.binds.length → s'.binds[i]? = s.binds[i]?) ∧
        s'.log = s.log ∧
        (∀ t nm bp b, (t, nm, bp) ∈ l → s.binds[bp]? = some b → b.lifetime = .scoped →
          ∃ bp', mlookup m' t nm = some bp' ∧ s.binds.length ≤ bp' ∧
            s'.binds[bp']? = some ⟨b.resolver, .nil, .scoped⟩) ∧
        (∀ t nm, (∀ bp b, (t, nm, bp) ∈ l → s.binds[bp]? = some b → b.lifetime ≠ .scoped) →
          mlookup m' t nm = mlookup m t nm) := by
  intro l
  induction l with
  | nil =>
    intro s m hch hall hnd
    refine ⟨s, m, ?_, hch, rfl, fun j _ => rfl, fun i _ => rfl, rfl, ?_, fun t nm _ => rfl⟩
    · simp [newScopeLoop]
    · intro t nm bp b hmem
      cases hmem
  | cons e rest ih =>
    obtain ⟨t0, nm0, bp0⟩ := e
    intro s m hch hall hnd
    obtain ⟨b, hbx, hsc⟩ := hall _ (List.mem_cons_self _ _)
    have hb : s.binds[bp0]? = some b := hbx
    have hchild_lt : child < s.containers.length := (List.getElem?_eq_some.mp hch).1
    have hrest_ok : ∀ e ∈ rest, scopedKeyOK s.binds e :=
      fun e he => hall e (List.mem_cons_of_mem _ he)
    by_cases hblt : b.lifetime = Lifetime.scoped
    · obtain ⟨ins, o0, orest, id, hres, hval, hkeyx⟩ := hsc hblt
      have hkey : GoTy.sTy o0 = t0 := hkeyx
      have hbind : bindF child b.resolver nm0 b.lifetime s =
          (.ok (), ⟨s.containers.set child ⟨some cp,
              minsert m (GoTy.sTy o0) nm0 s.binds.length⟩,
            s.binds ++ [⟨b.resolver, Value.nil, b.lifetime⟩], s.log⟩) := by
        simp only [bindF, hres, Value.typeOf, hval, getCont, setBmap]
        simp only [hch]
      have hstep : newScopeLoop child ((t0, nm0, bp0) :: rest) s =
          newScopeLoop child rest ⟨s.containers.set child ⟨some cp,
              minsert m (GoTy.sTy o0) nm0 s.binds.length⟩,
            s.binds ++ [⟨b.resolver, Value.nil, b.lifetime⟩], s.log⟩ := by
        simp only [newScopeLoop, getBind, hb, if_pos hblt, hbind]
      have hch1 : (⟨s.containers.set child ⟨some cp,
              minsert m (GoTy.sTy o0) nm0 s.binds.length⟩,
            s.binds ++ [⟨b.resolver, Value.nil, b.lifetime⟩], s.log⟩ : St).containers[child]? =
          some ⟨some cp, minsert m (GoTy.sTy o0) nm0 s.binds.length⟩ := by
        simp [List.getElem?_set_self hchild_lt]
      have hok1 : ∀ e ∈ rest, scopedKeyOK
          (⟨s.containers.set child ⟨some cp,
              minsert m (GoTy.sTy o0) nm0 s.binds.length⟩,
            s.binds ++ [⟨b.resolver, Value.nil, b.lifetime⟩], s.log⟩ : St).binds e := by
        intro e he
        obtain ⟨be, hbe, hse⟩ := hrest_ok e he
        have hlt : e.2.2 < s.binds.length := (List.getElem?_eq_some.mp hbe).1
        exact ⟨be, by simp only [List.getElem?_append_left hlt]; exact hbe, hse⟩
      obtain ⟨s', m', hloop, hch', hclen, hcoth, hbpres, hlog, hK1, hK2⟩ :=
        ih _ _ hch1 hok1 (List.pairwise_cons.mp hnd).2
      have hne_rest : ∀ bp', ¬((t0, nm0, bp') ∈ rest) := by
        intro bp' hmem
        have := (List.pairwise_cons.mp hnd).1 _ hmem
        exact this rfl
      refine ⟨s', m', by rw [hstep]; exact hloop, hch', by simpa using hclen, ?_, ?_, ?_,
        ?_, ?_⟩
      · intro j hj
        rw [hcoth j hj]
        simp [List.getElem?_set_ne (fun hx => hj hx.symm)]
      · intro i hi
        have hi1 : i < (s.binds ++ [(⟨b.resolver, Value.nil, b.lifetime⟩ : Binding)]).length := by
          simp
          omega
        rw [hbpres i (by simpa using hi1)]
        simp [List.getElem?_append_left hi]
      · exact hlog
      · intro t nm bp bb hmem hbb hbsc
        rcases List.mem_cons.mp hmem with hhd | htl
        · injection hhd with h1 h23
          injection h23 with h2 h3
          subst h1
          subst h2
          subst h3
          have hbbb : b = bb := by
            rw [hb] at hbb
            exact Option.some.inj hbb
          have hml : mlookup m' t nm =
              mlookup (minsert m (GoTy.sTy o0) nm s.binds.length) t nm := by
            apply hK2
            intro bp' b' hmem' _
            exact absurd hmem' (hne_rest bp')
          refine ⟨s.binds.length, ?_, le_refl _, ?_⟩
          · rw [hml, ← hkey]
            exact mlookup_minsert_self _ _ _ _
          · have hlen1 : s.binds.length <
                (s.binds ++ [(⟨b.resolver, Value.nil, b.lifetime⟩ : Binding)]).length := by
              simp
            rw [hbpres s.binds.length (by simp)]
            rw [← hbbb]
            simp [List.getElem?_concat_length, hblt]
        · have hbplt : bp < s.binds.length := (List.getElem?_eq_some.mp hbb).1
          have hbb1 : (s.binds ++ [(⟨b.resolver, Value.nil, b.lifetime⟩ : Binding)])[bp]? =
              some bb := by
            simp only [List.getElem?_append_left hbplt]
            exact hbb
          obtain ⟨bp', hml', hge', hbind'⟩ := hK1 t nm bp bb htl hbb1 hbsc
          refine ⟨bp', hml', ?_, hbind'⟩
          have hx : s.binds.length ≤ (s.binds ++
              [(⟨b.resolver, Value.nil, b.lifetime⟩ : Binding)]).length := by simp
          exact le_trans hx hge'
      · intro t nm hn
        have hne0 : (t, nm) ≠ (t0, nm0) := by
          intro hx
          injection hx with h1 h2
          subst h1
          subst h2
          exact hn bp0 b (List.mem_cons_self _ _) hb hblt
        have hml : mlookup m' t nm =
            mlookup (minsert m (GoTy.sTy o0) nm0 s.binds.length) t nm := by
          apply hK2
          intro bp' b' hmem' hbb' hsc'
          obtain ⟨be, hbe, _⟩ := hrest_ok _ hmem'
          have hlt' : bp' < s.binds.length := (List.getElem?_eq_some.mp hbe).1
          have hsame : (s.binds ++ [(⟨b.resolver, Value.nil, b.lifetime⟩ : Binding)])[bp']? =
              s.binds[bp']? := List.getElem?_append_left hlt'
          rw [hsame] at hbb'
          exact hn bp' b' (List.mem_cons_of_mem _ hmem') hbb' hsc'
        rw [hml, mlookup_minsert_other _ _ _ _ _ _ (by rw [hkey]; exact hne0)]
    · have hstep : newScopeLoop child ((t0, nm0, bp0) :: rest) s =
          newScopeLoop child rest s := by
        simp only [newScopeLoop, getBind, hb, if_neg hblt]
      obtain ⟨s', m', hloop, hch', hclen, hcoth, hbpres, hlog, hK1, hK2⟩ :=
        ih _ _ hch hrest_ok (List.pairwise_cons.mp hnd).2
      refine ⟨s', m', by rw [hstep]; exact hloop, hch', hclen, hcoth, hbpres, hlog, ?_, ?_⟩
      · intro t nm bp bb hmem hbb hbsc
        rcases List.mem_cons.mp hmem with hhd | htl
        · injection hhd with h1 h23
          injection h23 with h2 h3
          subst h1
          subst h2
          subst h3
          rw [hb] at hbb
          rw [Option.some.inj hbb] at hblt
          exact absurd hbsc hblt
        · exact hK1 t nm bp bb htl hbb hbsc
      · intro t nm hn
        exact hK2 t nm (fun bp b' hm hb' => hn bp b' (List.mem_cons_of_mem _ hm) hb')

theorem NewScopeF_spec (cp : Nat) (st : St) (c : CObj)
    (hc : getCont st cp = some c)
    (hok : ∀ e ∈ c.bmap, scopedKeyOK st.binds e)
    (hnd : List.Pairwise keyNe c.bmap) :
    ∃ st' m',
      NewScopeF cp st = (.ok st.containers.length, st') ∧
      st'.containers[st.containers.length]? = some ⟨some cp, m'⟩ ∧
      st'.containers.length = st.containers.length + 1 ∧
      (∀ j, j < st.containers.length → st'.containers[j]? = st.containers[j]?) ∧
      (∀ i, i < st.binds.length → st'.binds[i]? = st.binds[i]?) ∧
      st'.log = st.log ∧
      (∀ t nm bp b, (t, nm, bp) ∈ c.bmap → st.binds[bp]? = some b → b.lifetime = .scoped →
        ∃ bp', mlookup m' t nm = some bp' ∧ st.binds.length ≤ bp' ∧
          st'.binds[bp']? = some ⟨b.resolver, .nil, .scoped⟩) ∧
      (∀ t nm, (∀ bp b, (t, nm, bp) ∈ c.bmap → st.binds[bp]? = some b →
          b.lifetime ≠ .scoped) → mlookup m' t nm = none) := by
  have hc' : st.containers[cp]? = some c := hc
  have hstart : NewScopeF cp st = newScopeLoop st.containers.length c.bmap
      ⟨st.containers ++ [⟨some cp, []⟩], st.binds, st.log⟩ := by
    simp [NewScopeF, getCont, hc']
  have hch1 : (⟨st.containers ++ [⟨some cp, []⟩], st.binds, st.log⟩ :
      St).containers[st.containers.length]? = some ⟨some cp, []⟩ := by
    simp [List.getElem?_concat_length]
  have hok1 : ∀ e ∈ c.bmap, scopedKeyOK
      (⟨st.containers ++ [⟨some cp, []⟩], st.binds, st.log⟩ : St).binds e := hok
  obtain ⟨s', m', hloop, hch', hclen, hcoth, hbpres, hlog, hK1, hK2⟩ :=
    newScopeLoop_spec cp st.containers.length c.bmap _ [] hch1 hok1 hnd
  refine ⟨s', m', by rw [hstart]; exact hloop, hch', by simpa using hclen, ?_, hbpres, hlog,
    hK1, ?_⟩
  · intro j hj
    have hjne : j ≠ st.containers.length := by omega
    rw [hcoth j hjne]
    simp [List.getElem?_append_left hj]
  · intro t nm hn
    have := hK2 t nm hn
    rw [this]
    simp [mlookup]

theorem fillLoop_append (Φ : FnEnv) (n cp cx : Nat) (l1 l2 : List FieldInfo) :
    ∀ st acc st1 w, fillLoop Φ n cp cx l1 st acc = (.ok (), st1, w) →
      fillLoop Φ n cp cx (l1 ++ l2) st acc = fillLoop Φ n cp cx l2 st1 w := by
  induction l1 with
  | nil =>
    intro st acc st1 w h
    simp only [fillLoop] at h
    injection h with h1 h2
    injection h2 with h2 h3
    subst h2
    subst h3
    simp
  | cons f rest ih =>
    intro st acc st1 w h
    simp only [fillLoop] at h ⊢
    split at h
    · rename_i htag
      exact ih st acc st1 w h
    · rename_i tg htag
      by_cases ht : tg = "type"
      · rw [if_pos ht] at h ⊢
        split at h
        · rename_i v st2 heq
          split at h
          · simp at h
          · rename_i hv
            rw [if_neg hv]
            exact ih st2 _ st1 w h
        · simp at h
        · simp at h
        · simp at h
      · rw [if_neg ht] at h ⊢
        by_cases hn : tg = "name"
        · rw [if_pos hn] at h ⊢
          split at h
          · rename_i v st2 heq
            split at h
            · simp at h
            · rename_i hv
              rw [if_neg hv]
              exact ih st2 _ st1 w h
          · simp at h
          · simp at h
          · simp at h
        · rw [if_neg hn] at h
          simp at h

theorem bindF_frame (cp : Nat) (r : Value) (nm : String) (lt : Lifetime) (st : St) :
    (∀ i, i < st.binds.length → (bindF cp r nm lt st).2.binds[i]? = st.binds[i]?) ∧
    (∀ j, j ≠ cp → (bindF cp r nm lt st).2.containers[j]? = st.containers[j]?) ∧
    (∀ t' nm' k, regKey r = some k → (t', nm') ≠ (k, nm) →
      mlookupC (bindF cp r nm lt st).2 cp t' nm' = mlookupC st cp t' nm') ∧
    (regKey r = none → (bindF cp r nm lt st).2 = st) := by
  cases htype : r.typeOf with
  | none =>
    have hbf : bindF cp r nm lt st = (.crash, st) := by simp [bindF, htype]
    refine ⟨fun i _ => ?_, fun j _ => ?_, fun t' nm' k _ _ => ?_, fun _ => ?_⟩ <;> rw [hbf]
  | some g =>
    cases g with
    | fnTy ins outs =>
      cases hval : validateResolverFunction ins outs with
      | some e =>
        have hbf : bindF cp r nm lt st = (.err e, st) := by simp [bindF, htype, hval]
        refine ⟨fun i _ => ?_, fun j _ => ?_, fun t' nm' k _ _ => ?_, fun _ => ?_⟩ <;> rw [hbf]
      | none =>
        cases outs with
        | nil =>
          have hbf : bindF cp r nm lt st = (.crash, st) := by simp [bindF, htype, hval]
          refine ⟨fun i _ => ?_, fun j _ => ?_, fun t' nm' k _ _ => ?_, fun _ => ?_⟩ <;>
            rw [hbf]
        | cons o0 orest =>
          cases hcont : getCont st cp with
          | none =>
            have hbf : bindF cp r nm lt st = (.crash, st) := by
              simp [bindF, htype, hval, hcont]
            refine ⟨fun i _ => ?_, fun j _ => ?_, fun t' nm' k _ _ => ?_, fun _ => ?_⟩ <;>
              rw [hbf]
          | some c =>
            have hcp_lt : cp < st.containers.length := (List.getElem?_eq_some.mp hcont).1
            have hkval : regKey r = some (GoTy.sTy o0) := by simp [regKey, htype]
            have hbf : bindF cp r nm lt st = (.ok (), ⟨st.containers.set cp
                ⟨c.parent, minsert c.bmap (GoTy.sTy o0) nm st.binds.length⟩,
                st.binds ++ [⟨r, Value.nil, lt⟩], st.log⟩) := by
              simp only [bindF, htype, hval, hcont, setBmap]
              have hcont1 : (⟨st.containers, st.binds ++ [⟨r, Value.nil, lt⟩],
                  st.log⟩ : St).containers[cp]? = some c := hcont
              simp only [hcont1]
            refine ⟨?_, ?_, ?_, ?_⟩
            · intro i hi
              rw [hbf]
              simp [List.getElem?_append_left hi]
            · intro j hj
              rw [hbf]
              simp [List.getElem?_set_ne (fun hx => hj hx.symm)]
            · intro t' nm' k hk hne
              rw [hkval] at hk
              have hkk : k = GoTy.sTy o0 := (Option.some.inj hk).symm
              subst hkk
              rw [hbf]
              have hcont2 : st.containers[cp]? = some c := hcont
              simp only [mlookupC, getCont, List.getElem?_set_self hcp_lt, hcont2]
              exact mlookup_minsert_other _ _ _ _ _ _ hne
            · intro hk
              rw [hkval] at hk
              cases hk
    | sTy s' =>
      cases hcont : getCont st cp with
      | none =>
        have hbf : bindF cp r nm lt st = (.crash, st) := by
          simp [bindF, htype, hcont]
        refine ⟨fun i _ => ?_, fun j _ => ?_, fun t' nm' k _ _ => ?_, fun _ => ?_⟩ <;>
          rw [hbf]
      | some c =>
        have hcp_lt : cp < st.containers.length := (List.getElem?_eq_some.mp hcont).1
        have hkval : regKey r = some (GoTy.sTy s') := by simp [regKey, htype]
        have hbf : bindF cp r nm lt st = (.ok (), ⟨st.containers.set cp
            ⟨c.parent, minsert c.bmap (GoTy.sTy s') nm st.binds.length⟩,
            st.binds ++ [⟨Value.nil, r, lt⟩], st.log⟩) := by
          simp only [bindF, htype, hcont, setBmap]
          have hcont1 : (⟨st.containers, st.binds ++ [⟨Value.nil, r, lt⟩],
              st.log⟩ : St).containers[cp]? = some c := hcont
          simp only [hcont1]
        refine ⟨?_, ?_, ?_, ?_⟩
        · intro i hi
          rw [hbf]
          simp [List.getElem?_append_left hi]
        · intro j hj
          rw [hbf]
          simp [List.getElem?_set_ne (fun hx => hj hx.symm)]
        · intro t' nm' k hk hne
          rw [hkval] at hk
          have hkk : k = GoTy.sTy s' := (Option.some.inj hk).symm
          subst hkk
          rw [hbf]
          have hcont2 : st.containers[cp]? = some c := hcont
          simp only [mlookupC, getCont, List.getElem?_set_self hcp_lt, hcont2]
          exact mlookup_minsert_other _ _ _ _ _ _ hne
        · intro hk
          rw [hkval] at hk
          cases hk

theorem frameAt_refl (st : St) (cp : Nat) (k : Option GoTy) (nm : String) :
    frameAt st st cp k nm :=
  ⟨fun _ _ => rfl, fun _ _ => rfl, fun _ _ _ _ _ => rfl⟩

theorem frameAt_bindF (cp : Nat) (r : Value) (nm : String) (lt : Lifetime) (st : St) :
    frameAt st (bindF cp r nm lt st).2 cp (regKey r) nm :=
  ⟨(bindF_frame cp r nm lt st).1, (bindF_frame cp r nm lt st).2.1,
   (bindF_frame cp r nm lt st).2.2.1⟩

theorem frameAt_namedInstance (cp : Nat) (nm : String) (r : Value) (st : St) :
    frameAt st (RegisterNamedInstanceF cp nm r st).2 cp (regKey r) nm := by
  cases htype : r.typeOf with
  | none =>
    have hx : RegisterNamedInstanceF cp nm r st = (.crash, st) := by
      simp [RegisterNamedInstanceF, htype]
    rw [hx]
    exact frameAt_refl st cp _ nm
  | some g =>
    cases g with
    | fnTy ins outs =>
      have hx : RegisterNamedInstanceF cp nm r st = (.err .invalidResolverInstanceFunc, st) := by
        simp [RegisterNamedInstanceF, htype]
      rw [hx]
      exact frameAt_refl st cp _ nm
    | sTy s' =>
      have hx : RegisterNamedInstanceF cp nm r st = bindF cp r nm .singleton st := by
        simp [RegisterNamedInstanceF, htype]
      rw [hx]
      exact frameAt_bindF cp r nm .singleton st

theorem frameAt_namedSingleton (cp : Nat) (nm : String) (r : Value) (st : St) :
    frameAt st (RegisterNamedSingletonF cp nm r st).2 cp (regKey r) nm := by
  cases htype : r.typeOf with
  | none =>
    have hx : RegisterNamedSingletonF cp nm r st = (.crash, st) := by
      simp [RegisterNamedSingletonF, htype]
    rw [hx]
    exact frameAt_refl st cp _ nm
  | some g =>
    cases g with
    | fnTy ins outs =>
      have hx : RegisterNamedSingletonF cp nm r st = bindF cp r nm .singleton st := by
        simp [RegisterNamedSingletonF, htype]
      rw [hx]
      exact frameAt_bindF cp r nm .singleton st
    | sTy s' =>
      have hx : RegisterNamedSingletonF cp nm r st = (.err .invalidResolverNotFunc, st) := by
        simp [RegisterNamedSingletonF, htype]
      rw [hx]
      exact frameAt_refl st cp _ nm

theorem frameAt_namedTransient (cp : Nat) (nm : String) (r : Value) (st : St) :
    frameAt st (RegisterNamedTransientF cp nm r st).2 cp (regKey r) nm := by
  cases htype : r.typeOf with
  | none =>
    have hx : RegisterNamedTransientF cp nm r st = (.crash, st) := by
      simp [RegisterNamedTransientF, htype]
    rw [hx]
    exact frameAt_refl st cp _ nm
  | some g =>
    cases g with
    | fnTy ins outs =>
      have hx : RegisterNamedTransientF cp nm r st = bindF cp r nm .transient st := by
        simp [RegisterNamedTransientF, htype]
      rw [hx]
      exact frameAt_bindF cp r nm .transient st
    | sTy s' =>
      have hx : RegisterNamedTransientF cp nm r st = (.err .invalidResolverNotFunc, st) := by
        simp [RegisterNamedTransientF, htype]
      rw [hx]
      exact frameAt_refl st cp _ nm

theorem frameAt_namedScoped (cp : Nat) (nm : String) (r : Value) (st : St) :
    frameAt st (RegisterNamedScopedF cp nm r st).2 cp (regKey r) nm := by
  cases htype : r.typeOf with
  | none =>
    have hx : RegisterNamedScopedF cp nm r st = (.crash, st) := by
      simp [RegisterNamedScopedF, htype]
    rw [hx]
    exact frameAt_refl st cp _ nm
  | some g =>
    cases g with
    | fnTy ins outs =>
      have hx : RegisterNamedScopedF cp nm r st = bindF cp r nm .scoped st := by
        simp [RegisterNamedScopedF, htype]
      rw [hx]
      exact frameAt_bindF cp r nm .scoped st
    | sTy s' =>
      have hx : RegisterNamedScopedF cp nm r st = (.err .invalidResolverNotFunc, st) := by
        simp [RegisterNamedScopedF, htype]
      rw [hx]
      exact frameAt_refl st cp _ nm

/-- C6: for every container and every call to Resolve, ResolveNamed, Call,
Fill, or Validate with a nil ambient context, the operation returns the
dedicated ContextRequired error immediately with the state completely
unchanged: no binding is looked up, no factory invoked (the log does not
grow), and no cached state mutated. -/
theorem c6_nil_context_rejected (Φ : FnEnv) (n cp : Nat) (nm : String) (a : RTarget)
    (f : Value) (tgt : FTarget) (st : St) :
    ResolveF Φ n cp none a st = (.err .contextRequired, st) ∧
    ResolveNamedF Φ n cp none nm a st = (.err .contextRequired, st) ∧
    CallF Φ n cp none f st = (.err .contextRequired, st) ∧
    FillF Φ n cp none tgt st = (.err .contextRequired, st, []) ∧
    ValidateF Φ n cp none st = (.err .contextRequired, st) :=
  ⟨rfl, rfl, rfl, rfl, rfl⟩

/-- C10: every registration operation (Register, RegisterInstance, the
Singleton/Transient/Scoped registrars and their named variants) writes only
the single binding-map slot for its own (type, name) key: all pre-existing
binding records (including their cached concrete values) are unchanged,
all other containers are unchanged, and every other (type, name) key of
the target container looks up exactly as before. -/
theorem c10_registration_frame (cp : Nat) (r : Value) (nm : String)
    (o : RegisterOptions) (st : St) :
    frameAt st (RegisterF cp o st).2 cp (regKey o.Resolver) o.Name ∧
    frameAt st (RegisterNamedInstanceF cp nm r st).2 cp (regKey r) nm ∧
    frameAt st (RegisterInstanceF cp r st).2 cp (regKey r) "" ∧
    frameAt st (RegisterNamedSingletonF cp nm r st).2 cp (regKey r) nm ∧
    frameAt st (RegisterSingletonF cp r st).2 cp (regKey r) "" ∧
    frameAt st (RegisterNamedTransientF cp nm r st).2 cp (regKey r) nm ∧
    frameAt st (RegisterTransientF cp r st).2 cp (regKey r) "" ∧
    frameAt st (RegisterNamedScopedF cp nm r st).2 cp (regKey r) nm ∧
    frameAt st (RegisterScopedF cp r st).2 cp (regKey r) "" :=
  ⟨frameAt_bindF cp o.Resolver o.Name (o.Lifetime.getD .singleton) st,
   frameAt_namedInstance cp nm r st, frameAt_namedInstance cp "" r st,
   frameAt_namedSingleton cp nm r st, frameAt_namedSingleton cp "" r st,
   frameAt_namedTransient cp nm r st, frameAt_namedTransient cp "" r st,
   frameAt_namedScoped cp nm r st, frameAt_namedScoped cp "" r st⟩

/-- C10 witness: the frame property at a concrete container, resolver and
state. -/
theorem c10_registration_frame_witness :
    frameAt stRoot (RegisterF 0 ⟨.fnV [] [wS] 0, "", none⟩ stRoot).2 0
      (regKey (.fnV [] [wS] 0)) "" ∧
    frameAt stRoot (RegisterNamedInstanceF 0 "x" (.obj wT 44) stRoot).2 0
      (regKey (.obj wT 44)) "x" ∧
    frameAt stRoot (RegisterInstanceF 0 (.obj wT 44) stRoot).2 0 (regKey (.obj wT 44)) "" ∧
    frameAt stRoot (RegisterNamedSingletonF 0 "x" (.obj wT 44) stRoot).2 0
      (regKey (.obj wT 44)) "x" ∧
    frameAt stRoot (RegisterSingletonF 0 (.obj wT 44) stRoot).2 0 (regKey (.obj wT 44)) "" ∧
    frameAt stRoot (RegisterNamedTransientF 0 "x" (.obj wT 44) stRoot).2 0
      (regKey (.obj wT 44)) "x" ∧
    frameAt stRoot (RegisterTransientF 0 (.obj wT 44) stRoot).2 0 (regKey (.obj wT 44)) "" ∧
    frameAt stRoot (RegisterNamedScopedF 0 "x" (.obj wT 44) stRoot).2 0
      (regKey (.obj wT 44)) "x" ∧
    frameAt stRoot (RegisterScopedF 0 (.obj wT 44) stRoot).2 0 (regKey (.obj wT 44)) "" :=
  c10_registration_frame 0 (.obj wT 44) "x" ⟨.fnV [] [wS] 0, "", none⟩ stRoot

/-- C9: a factory with exactly two return values whose second value is not
of an error type is accepted at registration (only the return count, 1 or
2, and the self-dependency rule are validated), and on invocation with
arguments that resolved to non-nil instances the second return value is
silently ignored when its dynamic value does not implement error:
resolution succeeds with the first value regardless of what the second
value holds. -/
theorem c9_second_result_ignored (Φ : FnEnv) (ins : List STy) (o0 o1 : STy)
    (id cp cx n : Nat) (nm : String) (st st1 : St) (args : List Value) (c : CObj) :
    (validateResolverFunction ins [o0, o1] =
      if ins.contains o0 then some .invalidResolverSelfDep else none) ∧
    (ins.contains o0 = false → getCont st cp = some c →
      (RegisterNamedSingletonF cp nm (.fnV ins [o0, o1] id) st).1 = .ok ()) ∧
    (argumentsL Φ n cp cx ins st = (.ok args, st1) →
      Value.nil ∉ args →
      (∀ ty tag, Φ id args st1.log.length 1 ≠ .errV ty tag) →
      invoke Φ (n + 1) cp cx (.fnV ins [o0, o1] id) st =
        (.ok (Φ id args st1.log.length 0), ⟨st1.containers, st1.binds, st1.log ++ [id]⟩)) := by
  refine ⟨?_, ?_, ?_⟩
  · simp [validateResolverFunction]
  · intro hni hcont
    have hv0 : validateResolverFunction ins [o0, o1] =
        if ins.contains o0 then some Err.invalidResolverSelfDep else none := by
      simp [validateResolverFunction]
    have hval : validateResolverFunction ins [o0, o1] = none := by
      rw [hv0, hni]
      simp
    have hcont2 : st.containers[cp]? = some c := hcont
    simp [RegisterNamedSingletonF, Value.typeOf, bindF, hval, getCont, hcont2]
  · intro hargs hnn hne
    have hcall : callFn Φ id ([o0, o1] : List STy).length args st1 =
        (some [Φ id args st1.log.length 0, Φ id args st1.log.length 1],
         ⟨st1.containers, st1.binds, st1.log ++ [id]⟩) := by
      unfold callFn
      rw [if_neg hnn]
      rfl
    simp only [invoke, hargs, hcall]

/-- C9 witness: a factory func() (Shape, Shape) returning two non-error
values is registered successfully and resolves to its first value. -/
theorem c9_second_result_ignored_witness :
    validateResolverFunction [] [wS, wS] =
      (if ([] : List STy).contains wS then some .invalidResolverSelfDep else none) ∧
    (RegisterNamedSingletonF 0 "" (.fnV [] [wS, wS] 0) stRoot).1 = .ok () ∧
    invoke PhiAlloc 2 0 0 (.fnV [] [wS, wS] 0) stRoot =
      (.ok (PhiAlloc 0 [] 0 0), ⟨stRoot.containers, stRoot.binds, stRoot.log ++ [0]⟩) := by
  obtain ⟨h1, h2, h3⟩ :=
    c9_second_result_ignored PhiAlloc [] wS wS 0 0 0 1 "" stRoot stRoot [] ⟨none, []⟩
  exact ⟨h1, h2 rfl rfl, h3 rfl (by simp) (fun ty tag h => Value.noConfusion h)⟩

/-- C7 (amended): once Call has resolved the receiver's arguments, the
results are interpreted as: zero return values mean success; exactly one
return value of a nilable reflect kind means success when nil, the error
itself when the dynamic value implements error, and InvalidReceiver when
it is a non-nil non-error value; exactly one return value of a
non-nilable kind (e.g. int) makes reflect.Value.IsNil panic; more than one
return value yields InvalidReceiver. -/
theorem c7_call_result_interpretation (Φ : FnEnv) (n cp cx id : Nat) (ins : List STy)
    (st st1 : St) (args : List Value)
    (ha : argumentsL Φ n cp cx ins st = (.ok args, st1)) (hnn : Value.nil ∉ args) :
    (CallF Φ n cp (some cx) (.fnV ins [] id) st =
      (.ok (), ⟨st1.containers, st1.binds, st1.log ++ [id]⟩)) ∧
    (∀ o0, nilable o0 = true → Φ id args st1.log.length 0 = .nil →
      CallF Φ n cp (some cx) (.fnV ins [o0] id) st =
        (.ok (), ⟨st1.containers, st1.binds, st1.log ++ [id]⟩)) ∧
    (∀ o0 ty tag, nilable o0 = true → Φ id args st1.log.length 0 = .errV ty tag →
      CallF Φ n cp (some cx) (.fnV ins [o0] id) st =
        (.err (.userErr tag), ⟨st1.containers, st1.binds, st1.log ++ [id]⟩)) ∧
    (∀ o0, nilable o0 = true → Φ id args st1.log.length 0 ≠ .nil →
      (∀ ty tag, Φ id args st1.log.length 0 ≠ .errV ty tag) →
      CallF Φ n cp (some cx) (.fnV ins [o0] id) st =
        (.err .invalidReceiver, ⟨st1.containers, st1.binds, st1.log ++ [id]⟩)) ∧
    (∀ o0, nilable o0 = false →
      CallF Φ n cp (some cx) (.fnV ins [o0] id) st =
        (.crash, ⟨st1.containers, st1.binds, st1.log ++ [id]⟩)) ∧
    (∀ o0 o1 orest, CallF Φ n cp (some cx) (.fnV ins (o0 :: o1 :: orest) id) st =
      (.err .invalidReceiver, ⟨st1.containers, st1.binds, st1.log ++ [id]⟩)) := by
  refine ⟨?_, ?_, ?_, ?_, ?_, ?_⟩
  · have hcall : callFn Φ id ([] : List STy).length args st1 =
        (some [], ⟨st1.containers, st1.binds, st1.log ++ [id]⟩) := by
      unfold callFn
      rw [if_neg hnn]
      rfl
    simp only [CallF, ha, hcall]
  · intro o0 hnb hv0
    have hcall : callFn Φ id ([o0] : List STy).length args st1 =
        (some [Φ id args st1.log.length 0],
         ⟨st1.containers, st1.binds, st1.log ++ [id]⟩) := by
      unfold callFn
      rw [if_neg hnn]
      rfl
    simp only [CallF, ha, hcall, hnb, hv0]
    simp
  · intro o0 ty tag hnb hv0
    have hcall : callFn Φ id ([o0] : List STy).length args st1 =
        (some [Φ id args st1.log.length 0],
         ⟨st1.containers, st1.binds, st1.log ++ [id]⟩) := by
      unfold callFn
      rw [if_neg hnn]
      rfl
    simp only [CallF, ha, hcall, hnb, hv0]
    simp
  · intro o0 hnb hv0 hve
    have hcall : callFn Φ id ([o0] : List STy).length args st1 =
        (some [Φ id args st1.log.length 0],
         ⟨st1.containers, st1.binds, st1.log ++ [id]⟩) := by
      unfold callFn
      rw [if_neg hnn]
      rfl
    simp only [CallF, ha, hcall, hnb]
    rcases hv : Φ id args st1.log.length 0 with _ | ⟨ty2, tag2⟩ | ⟨ty2, tag2⟩ |
      ⟨ia, ob, idd⟩ | k
    · exact absurd hv hv0
    · simp
    · exact absurd hv (hve ty2 tag2)
    · simp
    · simp
  · intro o0 hnb
    have hcall : callFn Φ id ([o0] : List STy).length args st1 =
        (some [Φ id args st1.log.length 0],
         ⟨st1.containers, st1.binds, st1.log ++ [id]⟩) := by
      unfold callFn
      rw [if_neg hnn]
      rfl
    simp only [CallF, ha, hcall, hnb]
    simp
  · intro o0 o1 orest
    have hcall : callFn Φ id (o0 :: o1 :: orest : List STy).length args st1 =
        (some ((List.range (o0 :: o1 :: orest : List STy).length).map
            (fun i => Φ id args st1.log.length i)),
          ⟨st1.containers, st1.binds, st1.log ++ [id]⟩) := by
      unfold callFn
      rw [if_neg hnn]
    simp only [CallF, ha, hcall]

/-- C7 witness: a receiver with two return values is rejected with
InvalidReceiver after its arguments resolve. -/
theorem c7_call_result_interpretation_witness :
    CallF PhiConst 1 0 (some 0) (.fnV [] [wS, wS] 9) stRoot =
      (.err .invalidReceiver, ⟨stRoot.containers, stRoot.binds, stRoot.log ++ [9]⟩) :=
  (c7_call_result_interpretation PhiConst 1 0 0 9 [] stRoot stRoot [] rfl
    (by simp)).2.2.2.2.2 wS wS []

/-- C7 counterexample: the claim as stated says a single non-nil non-error
return value yields InvalidReceiver, but for a receiver func() int (a
single result of non-nilable kind) Call panics in reflect.Value.IsNil
instead of returning InvalidReceiver. -/
theorem c7_counterexample :
    (CallF PhiConst 3 0 (some 0) (.fnV [] [wIntS] 9) stRoot).1 = .crash ∧
    (CallF PhiConst 3 0 (some 0) (.fnV [] [wIntS] 9) stRoot).1 ≠ .err .invalidReceiver :=
  ⟨rfl, by decide⟩

/-- C1: for a Singleton binding, any successful resolution (whose instance
is necessarily non-nil, since a nil instance panics in reflect.Value.Set)
writes the binding's concrete slot, and every later resolution of the same
key returns the identical cached instance with the state unchanged — in
particular the factory is not invoked again (the result no longer depends
on the factory environment at all). -/
theorem c1_singleton_memoized (Φ Φ' : FnEnv) (n cp cx : Nat) (nm : String) (t : GoTy)
    (st st' : St) (v : Value) (bp : Nat) (b : Binding)
    (h : ResolveNamedF Φ n cp (some cx) nm (.ptrTo t) st = (.ok v, st'))
    (hc : chainF st.containers st.containers.length cp t nm = .ok (some bp))
    (hb : getBind st bp = some b) (hsing : b.lifetime = .singleton) :
    (∃ b', getBind st' bp = some b' ∧ b'.concrete = v) ∧
    (∀ m cx', ResolveNamedF Φ' (m + 2) cp (some cx') nm (.ptrTo t) st' = (.ok v, st')) := by
  have hx := resolve_after_success Φ Φ' n cp cx nm t st st' v bp b h hc hb
    (by rw [hsing]; exact fun hy => Lifetime.noConfusion hy)
  obtain ⟨⟨b', h1, h2, _, _⟩, h3⟩ := hx
  exact ⟨⟨b', h1, h2⟩, h3⟩

/-- C1 witness: after one successful resolution of a Singleton binding,
a later resolution under a different factory environment returns the same
instance and leaves the state untouched. -/
theorem c1_singleton_memoized_witness :
    ResolveNamedF PhiConst 3 0 (some 7) "" (.ptrTo wT) stC1a = (.ok (.obj wT 100), stC1a) :=
  (c1_singleton_memoized PhiAlloc PhiConst 5 0 0 "" wT stC1 stC1a (.obj wT 100) 0
    ⟨.fnV [] [wS] 0, .nil, .singleton⟩ rfl rfl rfl rfl).2 1 7

/-- C2 (amended): for a non-Transient binding with an empty concrete slot
(of any resolver shape), a factory invocation that returns a Go error
makes the resolution fail with that error wrapped in ResolutionFailed, in
exactly the state the invocation produced: binding.make performs no cache
write on error, so the failing binding's own slot is only ever written on
success.  A resolution of the binding while its slot is empty whose
factory invocation succeeds with a non-nil value returns that value and
caches it on the binding (no earlier failure is replayed); if the
invocation succeeds with a nil value, the nil is written to the slot (a
no-op for the `concrete != nil` test) and Resolve panics in
reflect.Value.Set. -/
theorem c2_error_not_cached (Φ : FnEnv) (st st2 st3 st4 : St) (cp cx n : Nat)
    (t : GoTy) (nm : String) (bp : Nat) (r : Value) (lt : Lifetime)
    (e : Err) (v' : Value)
    (hfind : chainF st.containers st.containers.length cp t nm = .ok (some bp))
    (hb : getBind st bp = some ⟨r, .nil, lt⟩)
    (hlt : lt ≠ .transient) :
    (invoke Φ n cp cx r st = (.err e, st2) →
      ResolveNamedF Φ (n + 2) cp (some cx) nm (.ptrTo t) st =
        (.err (.resolutionFailed t nm e), st2)) ∧
    (invoke Φ n cp cx r st = (.ok v', st3) → v' ≠ .nil →
      ResolveNamedF Φ (n + 2) cp (some cx) nm (.ptrTo t) st =
        (.ok v', setConcrete st3 bp v') ∧
      ∃ b3, getBind (setConcrete st3 bp v') bp = some b3 ∧ b3.concrete = v' ∧
        b3.resolver = r ∧ b3.lifetime = lt) ∧
    (invoke Φ n cp cx r st = (.ok .nil, st4) →
      ResolveNamedF Φ (n + 2) cp (some cx) nm (.ptrTo t) st =
        (.crash, setConcrete st4 bp .nil)) := by
  refine ⟨?_, ?_, ?_⟩
  · intro hinv
    simp only [ResolveNamedF, makeC, hfind, bindingMake, hb, hinv]
    simp
  · intro hinv hv'
    constructor
    · simp only [ResolveNamedF, makeC, hfind, bindingMake, hb, hinv]
      simp [hlt, hv']
    · have hevo : stEvo st st3 := by
        have hx := invoke_evo Φ n cp cx r st
        rw [hinv] at hx
        exact hx
      have hmap := hevo.2.2 bp
      have hb' : st.binds[bp]? = some ⟨r, .nil, lt⟩ := hb
      rw [hb'] at hmap
      cases hbp3 : st3.binds[bp]? with
      | none =>
        rw [hbp3] at hmap
        simp at hmap
      | some b3 =>
        rw [hbp3] at hmap
        simp only [Option.map, Option.some.injEq, Prod.mk.injEq] at hmap
        have hb3 : getBind st3 bp = some b3 := hbp3
        exact ⟨{ b3 with concrete := v' }, getBind_setConcrete_self st3 bp v' b3 hb3,
          rfl, hmap.1, hmap.2⟩
  · intro hinv
    simp only [ResolveNamedF, makeC, hfind, bindingMake, hb, hinv]
    simp [hlt]

/-- C2 witness: a concrete Singleton factory failing at its first
invocation: the failure is reported wrapped in ResolutionFailed and
nothing is cached; the retry on the unchanged binding re-invokes the
factory (the log grows again) and, succeeding with a non-nil value,
returns and caches it; and a retry whose invocation succeeds with a nil
value caches the no-op nil and panics. -/
theorem c2_error_not_cached_witness :
    ResolveNamedF PhiRetry 4 0 (some 0) "" (.ptrTo wT) stC2 =
      (.err (.resolutionFailed wT "" (.userErr 9)),
       ⟨stC2.containers, stC2.binds, stC2.log ++ [0]⟩) ∧
    (ResolveNamedF PhiRetry 4 0 (some 0) "" (.ptrTo wT)
        ⟨stC2.containers, stC2.binds, stC2.log ++ [0]⟩ =
      (.ok (.obj wT 101),
       setConcrete (⟨stC2.containers, stC2.binds, stC2.log ++ [0, 0]⟩ : St) 0
         (.obj wT 101)) ∧
     ∃ b3, getBind (setConcrete (⟨stC2.containers, stC2.binds,
         stC2.log ++ [0, 0]⟩ : St) 0 (.obj wT 101)) 0 = some b3 ∧
       b3.concrete = .obj wT 101 ∧ b3.resolver = .fnV [] [wS, wS] 0 ∧
       b3.lifetime = .singleton) ∧
    ResolveNamedF PhiRetryNil 4 0 (some 0) "" (.ptrTo wT)
        ⟨stC2.containers, stC2.binds, stC2.log ++ [0]⟩ =
      (.crash, setConcrete (⟨stC2.containers, stC2.binds,
         stC2.log ++ [0, 0]⟩ : St) 0 .nil) := by
  refine ⟨?_, ?_, ?_⟩
  · exact (c2_error_not_cached PhiRetry stC2
      ⟨stC2.containers, stC2.binds, stC2.log ++ [0]⟩ stRoot stRoot 0 0 2 wT "" 0
      (.fnV [] [wS, wS] 0) .singleton (.userErr 9) .nil rfl rfl (by decide)).1 rfl
  · exact (c2_error_not_cached PhiRetry
      ⟨stC2.containers, stC2.binds, stC2.log ++ [0]⟩ stRoot
      ⟨stC2.containers, stC2.binds, stC2.log ++ [0, 0]⟩ stRoot 0 0 2 wT "" 0
      (.fnV [] [wS, wS] 0) .singleton (.userErr 9) (.obj wT 101)
      rfl rfl (by decide)).2.1 rfl (by decide)
  · exact (c2_error_not_cached PhiRetryNil
      ⟨stC2.containers, stC2.binds, stC2.log ++ [0]⟩ stRoot stRoot
      ⟨stC2.containers, stC2.binds, stC2.log ++ [0, 0]⟩ 0 0 2 wT "" 0
      (.fnV [] [wS, wS] 0) .singleton (.userErr 9) .nil
      rfl rfl (by decide)).2.2 rfl

/-- C2 counterexample to the original claim: (a) the state is not
unchanged on error — a failing resolve whose factory consumes a Singleton
dependency leaves that dependency resolved and cached; (b) when the
retried invocation succeeds with a nil value, the new value is not
returned — Resolve panics in reflect.Value.Set instead. -/
theorem c2_counterexample :
    (ResolveF PhiDepErr 8 0 (some 0) (.ptrTo wT) stC2d).1 =
      .err (.resolutionFailed wT "" (.userErr 9)) ∧
    (ResolveF PhiDepErr 8 0 (some 0) (.ptrTo wT) stC2d).2 ≠ stC2d ∧
    getBind (ResolveF PhiDepErr 8 0 (some 0) (.ptrTo wT) stC2d).2 1 =
      some ⟨.fnV [] [wU] 1, .obj wUT 77, .singleton⟩ ∧
    (ResolveF PhiRetryNil 4 0 (some 0) (.ptrTo wT)
        (ResolveF PhiRetryNil 4 0 (some 0) (.ptrTo wT) stC2).2).1 = .crash :=
  ⟨rfl, by decide, rfl, rfl⟩

/-- C8: when the binding for a requested key is found in an ancestor of
the requesting container, the factory's dependency argument is resolved
starting from the requesting container's own lookup chain (so child-local
bindings can satisfy it), and the non-Transient result is still cached on
the ancestor-owned binding. -/
theorem c8_child_deps_ancestor_cache (Φ : FnEnv) (st : St) (cp cx : Nat) (t : GoTy)
    (nm : String) (bp bu id n : Nat) (u : STy) (o0 : STy) (lt : Lifetime) (bU : Binding)
    (cu : Value)
    (hfind : chainF st.containers st.containers.length cp t nm = .ok (some bp))
    (hb : getBind st bp = some ⟨.fnV [u] [o0] id, .nil, lt⟩)
    (hlt : lt ≠ .transient)
    (hu : u ≠ .ctx)
    (hdep : chainF st.containers st.containers.length cp (.sTy u) "" = .ok (some bu))
    (hbu : getBind st bu = some bU) (hcu : bU.concrete = cu) (hcune : cu ≠ .nil) :
    makeC Φ (n + 6) cp cx t nm st =
      (.ok (Φ id [cu] st.log.length 0),
       setConcrete (⟨st.containers, st.binds, st.log ++ [id]⟩ : St) bp
         (Φ id [cu] st.log.length 0)) ∧
    getBind (setConcrete (⟨st.containers, st.binds, st.log ++ [id]⟩ : St) bp
        (Φ id [cu] st.log.length 0)) bp =
      some ⟨.fnV [u] [o0] id, Φ id [cu] st.log.length 0, lt⟩ := by
  have hdep_make : makeC Φ (n + 2) cp cx (GoTy.sTy u) "" st = (.ok cu, st) := by
    simp only [makeC, hdep, bindingMake, hbu]
    rw [hcu, if_pos hcune]
  have hargs : argumentsL Φ (n + 3) cp cx [u] st = (.ok [cu], st) := by
    simp only [argumentsL, if_neg hu, hdep_make]
  have hnn : Value.nil ∉ ([cu] : List Value) := by
    simp only [List.mem_singleton]
    exact fun hx => hcune hx.symm
  have hcall : callFn Φ id ([o0] : List STy).length [cu] st =
      (some [Φ id [cu] st.log.length 0],
       ⟨st.containers, st.binds, st.log ++ [id]⟩) := by
    unfold callFn
    rw [if_neg hnn]
    rfl
  have hinv : invoke Φ (n + 4) cp cx (.fnV [u] [o0] id) st =
      (.ok (Φ id [cu] st.log.length 0), ⟨st.containers, st.binds, st.log ++ [id]⟩) := by
    simp only [invoke, hargs, hcall]
  refine ⟨?_, ?_⟩
  · simp only [makeC, hfind, bindingMake, hb, hinv]
    simp [hlt]
  · have hb2 : getBind (⟨st.containers, st.binds, st.log ++ [id]⟩ : St) bp =
        some ⟨.fnV [u] [o0] id, .nil, lt⟩ := hb
    exact getBind_setConcrete_self _ bp _ _ hb2

/-- C8 witness: the Shape binding lives at the root, its Database-like
dependency is bound both at the root (tag 50) and locally in the child
scope (tag 60); resolving from the child uses the child's instance and
caches on the root's binding. -/
theorem c8_child_deps_ancestor_cache_witness :
    makeC PhiDep 6 1 0 wT "" stC8 =
      (.ok (.obj wT 60),
       setConcrete (⟨stC8.containers, stC8.binds, stC8.log ++ [1]⟩ : St) 0 (.obj wT 60)) ∧
    getBind (setConcrete (⟨stC8.containers, stC8.binds, stC8.log ++ [1]⟩ : St) 0
        (.obj wT 60)) 0 =
      some ⟨.fnV [wU] [wS] 1, .obj wT 60, .singleton⟩ :=
  c8_child_deps_ancestor_cache PhiDep stC8 1 0 wT "" 0 2 1 0 wU wS .singleton
    ⟨.nil, .obj wUT 60, .singleton⟩ (.obj wUT 60) rfl rfl (by decide) (by decide)
    rfl rfl rfl (by decide)

/-- C4: NewScope creates a child whose parent is the receiver and which
contains, for every Scoped binding of the receiver, a fresh child-local
binding at the same (type, name) key with the same resolver, an empty
concrete slot and the (cacheable, Singleton-like) Scoped lifetime — so a
further NewScope on the child copies these bindings forward again and a
grandchild memoizes independently. Nothing else is copied: keys with no
Scoped binding in the receiver are absent from the child, and no existing
container or binding record is modified. -/
theorem c4_newscope_copies_scoped (cp : Nat) (st : St) (c : CObj)
    (hc : getCont st cp = some c)
    (hok : ∀ e ∈ c.bmap, scopedKeyOK st.binds e)
    (hnd : List.Pairwise keyNe c.bmap) :
    ∃ st' m',
      NewScopeF cp st = (.ok st.containers.length, st') ∧
      st'.containers[st.containers.length]? = some ⟨some cp, m'⟩ ∧
      st'.containers.length = st.containers.length + 1 ∧
      (∀ j, j < st.containers.length → st'.containers[j]? = st.containers[j]?) ∧
      (∀ i, i < st.binds.length → st'.binds[i]? = st.binds[i]?) ∧
      st'.log = st.log ∧
      (∀ t nm bp b, (t, nm, bp) ∈ c.bmap → st.binds[bp]? = some b →
        b.lifetime = .scoped →
        ∃ bp', mlookup m' t nm = some bp' ∧ st.binds.length ≤ bp' ∧
          st'.binds[bp']? = some ⟨b.resolver, .nil, .scoped⟩) ∧
      (∀ t nm, (∀ bp b, (t, nm, bp) ∈ c.bmap → st.binds[bp]? = some b →
          b.lifetime ≠ .scoped) → mlookup m' t nm = none) :=
  NewScopeF_spec cp st c hc hok hnd

/-- C4 witness: a scoped Shape binding at the root is copied into a fresh
scope. -/
theorem c4_newscope_copies_scoped_witness :
    ∃ st' m',
      NewScopeF 0 stC3 = (.ok stC3.containers.length, st') ∧
      st'.containers[stC3.containers.length]? = some ⟨some 0, m'⟩ ∧
      st'.containers.length = stC3.containers.length + 1 ∧
      (∀ j, j < stC3.containers.length → st'.containers[j]? = stC3.containers[j]?) ∧
      (∀ i, i < stC3.binds.length → st'.binds[i]? = stC3.binds[i]?) ∧
      st'.log = stC3.log ∧
      (∀ t nm bp b, (t, nm, bp) ∈ [(wT, "", 0)] → stC3.binds[bp]? = some b →
        b.lifetime = .scoped →
        ∃ bp', mlookup m' t nm = some bp' ∧ stC3.binds.length ≤ bp' ∧
          st'.binds[bp']? = some ⟨b.resolver, .nil, .scoped⟩) ∧
      (∀ t nm, (∀ bp b, (t, nm, bp) ∈ [(wT, "", 0)] → stC3.binds[bp]? = some b →
          b.lifetime ≠ .scoped) → mlookup m' t nm = none) :=
  c4_newscope_copies_scoped 0 stC3 ⟨none, [(wT, "", 0)]⟩ rfl
    (by
      intro e he
      simp only [List.mem_singleton] at he
      subst he
      exact ⟨⟨.fnV [] [wS] 0, .nil, .scoped⟩, rfl,
        fun _ => ⟨[], wS, [], 0, rfl, rfl, rfl⟩⟩)
    (by simp)

theorem scopedKeyOK_transfer (b1 b2 : List Binding) (e : GoTy × String × Nat)
    (hmap : (b2[e.2.2]?).map (fun (b : Binding) => (b.resolver, b.lifetime)) =
            (b1[e.2.2]?).map (fun (b : Binding) => (b.resolver, b.lifetime)))
    (h : scopedKeyOK b1 e) : scopedKeyOK b2 e := by
  obtain ⟨b, hb, hsc⟩ := h
  rw [hb] at hmap
  cases h2 : b2[e.2.2]? with
  | none =>
    rw [h2] at hmap
    simp at hmap
  | some bb =>
    rw [h2] at hmap
    simp only [Option.map, Option.some.injEq, Prod.mk.injEq] at hmap
    refine ⟨bb, h2, fun hl => ?_⟩
    obtain ⟨ins, o0, orest, idf, hres, hval, hkey⟩ := hsc (by rw [← hmap.2]; exact hl)
    exact ⟨ins, o0, orest, idf, by rw [hmap.1]; exact hres, hval, hkey⟩

/-- C3 (amended): for a Scoped binding: (i) within one scope created by
NewScope, after a successful resolution every later resolution of the key
in that scope returns the identical instance with the state unchanged;
(ii) when additionally the factory allocates (returns a fresh non-nil
instance at every invocation), two sibling scopes created from the same
parent each invoke the factory anew and obtain distinct instances; (iii)
resolving the key directly on the root container behaves like a
Singleton: later resolves return the first instance unchanged.
Conjuncts (i) and (iii) hold for every factory. -/
theorem c3_scoped_lifetimes (Φ : FnEnv) (id : Nat)
    (st : St) (cp : Nat) (c : CObj) (t : GoTy) (nm : String) (bp : Nat)
    (ins outs : List STy)
    (hc : getCont st cp = some c)
    (hok : ∀ e ∈ c.bmap, scopedKeyOK st.binds e)
    (hnd : List.Pairwise keyNe c.bmap)
    (hmem : (t, nm, bp) ∈ c.bmap)
    (hb : getBind st bp = some ⟨.fnV ins outs id, .nil, .scoped⟩) :
    (∀ a stA n cx v st₂, NewScopeF cp st = (.ok a, stA) →
      ResolveNamedF Φ n a (some cx) nm (.ptrTo t) stA = (.ok v, st₂) →
      ∀ m cx', ResolveNamedF Φ (m + 2) a (some cx') nm (.ptrTo t) st₂ = (.ok v, st₂)) ∧
    (FreshFactory Φ id →
      ∀ a stA n cx vA st₂ bs stB m cx' vB st₃,
      NewScopeF cp st = (.ok a, stA) →
      ResolveNamedF Φ n a (some cx) nm (.ptrTo t) stA = (.ok vA, st₂) →
      NewScopeF cp st₂ = (.ok bs, stB) →
      ResolveNamedF Φ m bs (some cx') nm (.ptrTo t) stB = (.ok vB, st₃) →
      vA ≠ vB) ∧
    (∀ n cx v st₂, ResolveNamedF Φ n cp (some cx) nm (.ptrTo t) st = (.ok v, st₂) →
      ∀ m cx', ResolveNamedF Φ (m + 2) cp (some cx') nm (.ptrTo t) st₂ = (.ok v, st₂)) := by
  have hb' : st.binds[bp]? = some ⟨.fnV ins outs id, .nil, .scoped⟩ := hb
  have hcp_lt : cp < st.containers.length := (List.getElem?_eq_some.mp hc).1
  obtain ⟨stA0, mA, hNS0, hchA, hclenA, hcothA, hbpresA, hlogA, hK1A, hK2A⟩ :=
    NewScopeF_spec cp st c hc hok hnd
  obtain ⟨bpa, hmlA, hgeA, hbcA⟩ := hK1A t nm bp _ hmem hb' rfl
  have hbcA' : getBind stA0 bpa = some ⟨.fnV ins outs id, .nil, .scoped⟩ := hbcA
  have hchainA : chainF stA0.containers stA0.containers.length
      st.containers.length t nm = .ok (some bpa) := by
    rw [hclenA]
    exact chainF_local _ _ _ _ _ _ _ hchA hmlA
  refine ⟨?_, ?_, ?_⟩
  · intro a stA n cx v st₂ hNS hres
    rw [hNS0] at hNS
    injection hNS with h1 h2
    injection h1 with h1
    subst h1
    subst h2
    exact (resolve_after_success Φ Φ n st.containers.length cx nm t stA0 st₂ v bpa _
      hres hchainA hbcA' (fun hx => Lifetime.noConfusion hx)).2
  · intro hF a stA n cx vA st₂ bs stB m cx' vB st₃ hNSA hresA hNSB hresB
    rw [hNS0] at hNSA
    injection hNSA with h1 h2
    injection h1 with h1
    subst h1
    subst h2
    obtain ⟨argsA, sA, hsA1, hveqA, hsA2⟩ := resolve_fresh_shape Φ n st.containers.length
      cx nm t stA0 st₂ vA bpa _ ins outs id hresA hchainA hbcA' rfl rfl
    have hevoA : stEvo stA0 st₂ := by
      have hm := resolveNamed_ok_elim Φ n st.containers.length cx nm t stA0 st₂ vA hresA
      have hx := makeC_evo Φ n st.containers.length cx t nm stA0
      rw [hm.1] at hx
      exact hx
    have hc2 : getCont st₂ cp = some c := by
      unfold getCont
      rw [hevoA.1, hcothA cp hcp_lt]
      exact hc
    have hok2 : ∀ e ∈ c.bmap, scopedKeyOK st₂.binds e := by
      intro e he
      have h1e := hok e he
      have he_lt : e.2.2 < st.binds.length := by
        obtain ⟨b0, hb0, _⟩ := h1e
        exact (List.getElem?_eq_some.mp hb0).1
      have hstA : stA0.binds[e.2.2]? = st.binds[e.2.2]? := hbpresA e.2.2 he_lt
      refine scopedKeyOK_transfer st.binds st₂.binds e ?_ h1e
      rw [hevoA.2.2 e.2.2, hstA]
    obtain ⟨stB0, mB, hNSB0, hchB, hclenB, hcothB, hbpresB, hlogB, hK1B, hK2B⟩ :=
      NewScopeF_spec cp st₂ c hc2 hok2 hnd
    rw [hNSB0] at hNSB
    injection hNSB with h3 h4
    injection h3 with h3
    subst h3
    subst h4
    have hmapbp := hevoA.2.2 bp
    have hstAbp : stA0.binds[bp]? = st.binds[bp]? :=
      hbpresA bp (List.getElem?_eq_some.mp hb').1
    rw [hstAbp, hb'] at hmapbp
    cases hbp2 : st₂.binds[bp]? with
    | none =>
      rw [hbp2] at hmapbp
      simp at hmapbp
    | some b2 =>
      rw [hbp2] at hmapbp
      simp only [Option.map, Option.some.injEq, Prod.mk.injEq] at hmapbp
      obtain ⟨bpb, hmlB, hgeB, hbcB⟩ := hK1B t nm bp b2 hmem hbp2 hmapbp.2
      have hbcB' : getBind stB0 bpb = some ⟨.fnV ins outs id, .nil, .scoped⟩ := by
        unfold getBind
        rw [hbcB, hmapbp.1]
      have hchainB : chainF stB0.containers stB0.containers.length
          st₂.containers.length t nm = .ok (some bpb) := by
        rw [hclenB]
        exact chainF_local _ _ _ _ _ _ _ hchB hmlB
      obtain ⟨argsB, sB, hsB1, hveqB, hsB2⟩ := resolve_fresh_shape Φ m
        st₂.containers.length cx' nm t stB0 st₃ vB bpb _ ins outs id hresB hchainB
        hbcB' rfl rfl
      intro hEq
      have hseq : sA = sB := hF.1 argsA sA argsB sB (by rw [← hveqA, ← hveqB]; exact hEq)
      rw [hlogB] at hsB1
      omega
  · intro n cx v st₂ hres
    have hml0 : mlookup c.bmap t nm = some bp := mlookup_eq_of_mem _ _ _ _ hmem hnd
    obtain ⟨k, hk⟩ : ∃ k, st.containers.length = k + 1 :=
      ⟨st.containers.length - 1, by omega⟩
    have hchain0 : chainF st.containers st.containers.length cp t nm = .ok (some bp) := by
      rw [hk]
      exact chainF_local _ _ _ _ _ _ _ hc hml0
    exact (resolve_after_success Φ Φ n cp cx nm t st st₂ v bp _ hres hchain0 hb
      (fun hx => Lifetime.noConfusion hx)).2

theorem freshPhiAlloc : FreshFactory PhiAlloc 0 := by
  constructor
  · intro args s args' s' h
    simp only [PhiAlloc, Value.obj.injEq] at h
    omega
  · intro args s
    simp [PhiAlloc]

theorem hokC3 : ∀ e ∈ [((wT : GoTy), ("" : String), (0 : Nat))], scopedKeyOK stC3.binds e := by
  intro e he
  simp only [List.mem_singleton] at he
  subst he
  exact ⟨⟨.fnV [] [wS] 0, .nil, .scoped⟩, rfl, fun _ => ⟨[], wS, [], 0, rfl, rfl, rfl⟩⟩

/-- C3 witness: a scoped Shape binding: resolving twice within scope A
yields the cached instance, and the instances of sibling scopes A and B
are distinct. -/
theorem c3_scoped_lifetimes_witness :
    ResolveNamedF PhiAlloc 3 1 (some 9) "" (.ptrTo wT) stC3Ar =
      (.ok (.obj wT 100), stC3Ar) ∧
    (Value.obj wT 100 ≠ Value.obj wT 101) := by
  have hth := c3_scoped_lifetimes PhiAlloc 0 stC3 0 ⟨none, [(wT, "", 0)]⟩
    wT "" 0 [] [wS] rfl hokC3 (by simp) (by simp) rfl
  exact ⟨hth.1 1 stC3A 5 0 (.obj wT 100) stC3Ar rfl rfl 1 9,
         hth.2.1 freshPhiAlloc 1 stC3A 5 0 (.obj wT 100) stC3Ar 2 stC3B 5 0
           (.obj wT 101) stC3Br rfl rfl rfl rfl⟩

/-- C3 counterexample: with a factory that returns one shared instance,
the resolutions of two sibling scopes are identity-equal (both are the
same Value), so the claim's universally stated "resolutions from two
sibling scopes are distinct instances" fails on the code as written. -/
theorem c3_counterexample :
    (NewScopeF 0 stC3).1 = .ok 1 ∧
    (ResolveF PhiConst 5 1 (some 0) (.ptrTo wT) stC3A).1 = .ok (.obj wT 7) ∧
    (NewScopeF 0 stC3Cr).1 = .ok 2 ∧
    (ResolveF PhiConst 5 2 (some 0) (.ptrTo wT) stC3CB).1 = .ok (.obj wT 7) :=
  ⟨rfl, rfl, rfl, rfl⟩

/-- C5 (amended): during Fill of a struct pointer, a field tagged
container:"type" is assigned the value resolved for (its declared type,
name ""), a field tagged container:"name" the value resolved for (its
declared type, its own identifier) — unless the resolved instance is nil,
in which case Fill panics in ptr.Set; a field carrying any other tag
aborts Fill with InvalidStructure naming that field, injecting nothing
into it or any later field (fields processed earlier keep their injected
values); and the first resolution failure aborts Fill with
ResolutionFailed naming the field. -/
theorem c5_fill_fields (Φ : FnEnv) (n cp cx : Nat) (pre post : List FieldInfo)
    (f : FieldInfo) (st st1 : St) (w : List (String × Value))
    (hpre : fillLoop Φ n cp cx pre st [] = (.ok (), st1, w)) :
    (f.tag = some "type" → ∀ v st2, makeC Φ n cp cx f.fty "" st1 = (.ok v, st2) →
      v ≠ .nil →
      FillF Φ n cp (some cx) (.ptrStruct (pre ++ f :: post)) st =
        fillLoop Φ n cp cx post st2 (w ++ [(f.fname, v)])) ∧
    (f.tag = some "name" → ∀ v st2, makeC Φ n cp cx f.fty f.fname st1 = (.ok v, st2) →
      v ≠ .nil →
      FillF Φ n cp (some cx) (.ptrStruct (pre ++ f :: post)) st =
        fillLoop Φ n cp cx post st2 (w ++ [(f.fname, v)])) ∧
    (∀ tg, f.tag = some tg → tg ≠ "type" → tg ≠ "name" →
      FillF Φ n cp (some cx) (.ptrStruct (pre ++ f :: post)) st =
        (.err (.invalidStructureTag f.fname), st1, w)) ∧
    (f.tag = some "type" → ∀ e st2, makeC Φ n cp cx f.fty "" st1 = (.err e, st2) →
      FillF Φ n cp (some cx) (.ptrStruct (pre ++ f :: post)) st =
        (.err (.resolutionFailedField f.fname e), st2, w)) ∧
    (f.tag = some "name" → ∀ e st2, makeC Φ n cp cx f.fty f.fname st1 = (.err e, st2) →
      FillF Φ n cp (some cx) (.ptrStruct (pre ++ f :: post)) st =
        (.err (.resolutionFailedField f.fname e), st2, w)) ∧
    (f.tag = some "type" → ∀ st2, makeC Φ n cp cx f.fty "" st1 = (.ok .nil, st2) →
      FillF Φ n cp (some cx) (.ptrStruct (pre ++ f :: post)) st = (.crash, st2, w)) ∧
    (f.tag = some "name" → ∀ st2, makeC Φ n cp cx f.fty f.fname st1 = (.ok .nil, st2) →
      FillF Φ n cp (some cx) (.ptrStruct (pre ++ f :: post)) st = (.crash, st2, w)) := by
  have hbase : FillF Φ n cp (some cx) (.ptrStruct (pre ++ f :: post)) st =
      fillLoop Φ n cp cx (f :: post) st1 w := by
    have h0 : FillF Φ n cp (some cx) (.ptrStruct (pre ++ f :: post)) st =
        fillLoop Φ n cp cx (pre ++ f :: post) st [] := rfl
    rw [h0]
    exact fillLoop_append Φ n cp cx pre (f :: post) st [] st1 w hpre
  refine ⟨?_, ?_, ?_, ?_, ?_, ?_, ?_⟩
  · intro htag v st2 hmk hv
    rw [hbase]
    simp only [fillLoop, htag, hmk]
    simp [hv]
  · intro htag v st2 hmk hv
    rw [hbase]
    simp only [fillLoop, htag, hmk]
    simp [hv]
  · intro tg htag ht hn
    rw [hbase]
    simp only [fillLoop, htag]
    rw [if_neg ht, if_neg hn]
  · intro htag e st2 hmk
    rw [hbase]
    simp only [fillLoop, htag, hmk]
    simp
  · intro htag e st2 hmk
    rw [hbase]
    simp only [fillLoop, htag, hmk]
    simp
  · intro htag st2 hmk
    rw [hbase]
    simp only [fillLoop, htag, hmk]
    simp
  · intro htag st2 hmk
    rw [hbase]
    simp only [fillLoop, htag, hmk]
    simp

/-- C5 witness: a single field tagged "type" is injected with the value
resolved for its declared type under the empty name. -/
theorem c5_fill_fields_witness :
    FillF PhiConst 3 0 (some 0) (.ptrStruct [fldA]) stC5 =
      fillLoop PhiConst 3 0 0 [] stC5 ([] ++ [("A", .obj wT 44)]) :=
  (c5_fill_fields PhiConst 3 0 0 [] [] fldA stC5 stC5 [] rfl).1 rfl (.obj wT 44) stC5 rfl
    (by decide)

/-- C5 counterexample: a struct whose first field (tag "type") injects
successfully and whose second field carries an unrecognized tag: Fill
returns InvalidStructure naming the second field, but the first field has
already been injected, so the call does not inject nothing. -/
theorem c5_counterexample :
    FillF PhiConst 3 0 (some 0) (.ptrStruct [fldA, fldB]) stC5 =
      (.err (.invalidStructureTag "B"), stC5, [("A", .obj wT 44)]) ∧
    ([("A", (.obj wT 44 : Value))] ≠ ([] : List (String × Value))) :=
  ⟨rfl, by decide⟩
